import Mathlib

/-!
# The xDS resource builder of envoy-xds-controller

A shallow embedding of `pkg/xds/builder` (`tls.go`, `utils.go`,
`xdsresourcebuilder.go`) and the properties of its certificate resolver,
secret translator, generic tree search and filter-chain assembly.

Conventions of the embedding:

* a Go `map[string]V` is an association list `GoMap V`; `range` visits the
  entries in list order, which is one of the orders Go may choose;
* a Go `(value, error)` result that may carry a value next to the error is a
  pair with an `Option Error`; a result that is either a value or an error is
  an `Except Error`;
* protobuf decoding and validation, the Kubernetes client and the helpers of
  other packages are fields of `Env`.
-/

namespace Xds

/-! ## Go maps -/

/-- Go `map[string]V`: an association list read by first match. Maps built by
`GoMap.set` have pairwise distinct keys. -/
abbrev GoMap (V : Type) := List (String × V)

namespace GoMap

/-- The map read `m[k]` with its presence flag. -/
def get {V : Type} : GoMap V → String → Option V
  | [], _ => none
  | (k', v) :: rest, k => if k' = k then some v else get rest k

/-- The map write `m[k] = v`: replaces the entry of `k` or adds one. -/
def set {V : Type} : GoMap V → String → V → GoMap V
  | [], k, v => [(k, v)]
  | (k', v') :: rest, k, v => if k' = k then (k, v) :: rest else (k', v') :: set rest k v

/-- The keys of the map, in entry order. -/
def keys {V : Type} (m : GoMap V) : List String := m.map Prod.fst

end GoMap

/-! ## Errors (`pkg/errors`) -/

/-- The error values the builder creates: `errors.New`, `errors.NewUKS`,
`errors.Wrap`, `errors.WrapUKS`, `fmt.Errorf`, and a nil dereference. -/
inductive Error where
  | new (msg : String)
  | uks (msg : String)
  | wrap (inner : Error) (msg : String)
  | wrapUKS (inner : Error) (msg : String)
  | errorf (msg : String)
  | nilDeref
  deriving DecidableEq, Repr

/-! ## Helpers of `pkg/utils` and `pkg/utils/k8s` -/

/-- Modelled from the spec: `k8s.GetResourceName` is defined outside `src/`.
The spec names records `{namespace}/{name}`; `makeEnvoyTLSSecret` names the
record of a credential with `fmt.Sprintf("%s/%s", ...)`, the name under which
the filter chain of the grouping key refers to it, and `fillUsedSecrets` takes
each grouping key apart again with `k8s.SplitResourceName`. -/
def GetResourceName (ns name : String) : String :=
  ns ++ "/" ++ name

/-- Drops the leftmost label: everything before the first dot. -/
def dropFirstLabel : List Char → List Char
  | [] => []
  | c :: cs => if c = '.' then c :: cs else dropFirstLabel cs

/-- Modelled from the spec: `utils.GetWildcardDomain` is defined outside
`src/`. The wildcard form of a domain replaces its leftmost label with `*`. -/
def GetWildcardDomain (domain : String) : String :=
  ⟨'*' :: dropFirstLabel domain.data⟩

/-! ## The certificate resolver (`tls.go`) -/

/-- Byte blobs of a credential object. -/
abbrev Bytes := List Nat

/-- The fields of `v1alpha1.ResourceRef` the builder reads. -/
structure ResourceRef where
  Name : String
  Namespace : Option String
  deriving DecidableEq, Repr

/-- The TLS intent `v1alpha1.TlsConfig`. -/
structure TlsConfig where
  SecretRef : Option ResourceRef
  AutoDiscovery : Option Bool
  deriving DecidableEq, Repr

/-- The fields of `corev1.Secret` the builder reads; `SecretType` is its `Type`. -/
structure Secret where
  Namespace : String
  Name : String
  SecretType : String
  Data : GoMap Bytes
  deriving DecidableEq, Repr

/-- The result type of `GetTLSType`: the two constants `Provide` switches on,
and any other value. -/
inductive TLSType where
  | SecretRefType
  | AutoDiscoveryType
  | unknown
  deriving DecidableEq, Repr

/-- Modelled from the spec: `TlsConfig.GetTLSType` is defined outside `src/`.
The TLS intent is a discriminated union with exactly one variant active: an
explicit secret reference or auto-discovery. -/
def GetTLSType (tc : TlsConfig) : Except Error TLSType :=
  match tc.SecretRef, tc.AutoDiscovery with
  | some _, some _ => .error (.new "many param")
  | some _, none => .ok .SecretRefType
  | none, some _ => .ok .AutoDiscoveryType
  | none, none => .error (.new "zero param")

/-- The struct `TlsFactory`. -/
structure TlsFactory where
  TlsConfig : TlsConfig
  vsNamespace : String
  certificatesIndex : GoMap Secret

/-- The constructor `NewTlsFactory`. -/
def NewTlsFactory (tlsConfig : TlsConfig) (ns : String) (index : GoMap Secret) :
    TlsFactory :=
  { TlsConfig := tlsConfig, vsNamespace := ns, certificatesIndex := index }

/-- A domain grouping as Go returns it: a possibly nil map, next to an error. -/
abbrev GroupingResult := Option (GoMap (List String)) × Option Error

/-- The method `provideSecretRef` (tls.go 59-71). Reading `SecretRef` through a
nil pointer is the error `nilDeref`. -/
def provideSecretRef (tf : TlsFactory) (domains : List String) : GroupingResult :=
  match tf.TlsConfig.SecretRef with
  | none => (none, some .nilDeref)
  | some ref =>
    let secretNamespace :=
      match ref.Namespace with
      | some ns => ns
      | none => tf.vsNamespace
    (some [(GetResourceName secretNamespace ref.Name, domains)], none)

/-- The index lookups of one loop round (tls.go 79-86): the exact entry, and on
a miss the entry of the wildcard form. -/
def lookupCertificate (index : GoMap Secret) (domain : String) : Option Secret :=
  match index.get domain with
  | some secret => some secret
  | none => index.get (GetWildcardDomain domain)

/-- The error of tls.go 84; `notFoundMessage` is `errors.DiscoverNotFoundMessage`. -/
def discoverNotFound (notFoundMessage domain : String) : Error :=
  .uks ("domain - " ++ domain ++ ": " ++ notFoundMessage)

/-- The loop of `provideAutoDiscovery` (tls.go 76-95) over the remaining
domains, from the map built so far. -/
def provideAutoDiscoveryLoop (notFoundMessage : String) (index : GoMap Secret) :
    List String → GoMap (List String) → GoMap (List String) × Option Error
  | [], cwd => (cwd, none)
  | domain :: rest, cwd =>
    match lookupCertificate index domain with
    | none => (cwd, some (discoverNotFound notFoundMessage domain))
    | some secret =>
      match cwd.get (GetResourceName secret.Namespace secret.Name) with
      | some d =>
        provideAutoDiscoveryLoop notFoundMessage index rest
          (cwd.set (GetResourceName secret.Namespace secret.Name) (d ++ [domain]))
      | none =>
        provideAutoDiscoveryLoop notFoundMessage index rest
          (cwd.set (GetResourceName secret.Namespace secret.Name) [domain])

/-- The method `provideAutoDiscovery` (tls.go 73-98). -/
def provideAutoDiscovery (notFoundMessage : String) (tf : TlsFactory) (domains : List String) :
    GroupingResult :=
  let r := provideAutoDiscoveryLoop notFoundMessage tf.certificatesIndex domains []
  (some r.1, r.2)

/-- The method `Provide` (tls.go 43-57). -/
def Provide (notFoundMessage : String) (tf : TlsFactory) (domains : List String) :
    GroupingResult :=
  match GetTLSType tf.TlsConfig with
  | .error err => (none, some (.wrap err "Cannot get TlsConfig type"))
  | .ok .SecretRefType => provideSecretRef tf domains
  | .ok .AutoDiscoveryType => provideAutoDiscovery notFoundMessage tf domains
  | .ok .unknown => (none, none)

/-! ## The secret translator (`utils.go`) -/

/-- The two payloads of `tlsv3.Secret` the builder creates: a certificate chain
with its private key, or one generic value. -/
inductive SecretPayload where
  | TlsCertificate (CertificateChain PrivateKey : Bytes)
  | GenericSecret (Secret : Bytes)
  deriving DecidableEq, Repr

/-- The proxy secret record `tlsv3.Secret`. -/
structure EnvoySecret where
  Name : String
  Payload : SecretPayload
  deriving DecidableEq, Repr

/-- The constant `corev1.SecretTypeTLS`. -/
def SecretTypeTLS : String := "kubernetes.io/tls"

/-- The constant `corev1.SecretTypeOpaque`. -/
def SecretTypeOpaque : String := "Opaque"

/-- The constant `corev1.TLSCertKey`. -/
def TLSCertKey : String := "tls.crt"

/-- The constant `corev1.TLSPrivateKeyKey`. -/
def TLSPrivateKeyKey : String := "tls.key"

/-- The record `makeEnvoyTLSSecret` builds (utils.go 25-41); a missing blob
reads as the empty byte string. -/
def tlsRecord (kubeSecret : Secret) : EnvoySecret :=
  { Name := kubeSecret.Namespace ++ "/" ++ kubeSecret.Name
    Payload := .TlsCertificate ((kubeSecret.Data.get TLSCertKey).getD [])
      ((kubeSecret.Data.get TLSPrivateKeyKey).getD []) }

/-- The function `makeEnvoyTLSSecret` (utils.go 22-49); `validate` is
`Secret.ValidateAll`. -/
def makeEnvoyTLSSecret (validate : EnvoySecret → Option Error) (kubeSecret : Secret) :
    Except Error (List EnvoySecret) :=
  match validate (tlsRecord kubeSecret) with
  | some err => .error (.wrap err "cannot validate Envoy Secret")
  | none => .ok ([] ++ [tlsRecord kubeSecret])

/-- The record `makeEnvoyOpaqueSecret` builds for the blob `v` stored under `k`
(utils.go 55-66). -/
def opaqueRecord (kubeSecret : Secret) (k : String) (v : Bytes) : EnvoySecret :=
  { Name := kubeSecret.Namespace ++ "/" ++ kubeSecret.Name ++ "/" ++ k
    Payload := .GenericSecret v }

/-- The loop of `makeEnvoyOpaqueSecret` (utils.go 54-73) over the remaining
blobs, from the records built so far. -/
def makeEnvoyOpaqueSecretLoop (validate : EnvoySecret → Option Error) (kubeSecret : Secret) :
    GoMap Bytes → List EnvoySecret → Except Error (List EnvoySecret)
  | [], secrets => .ok secrets
  | (k, v) :: rest, secrets =>
    match validate (opaqueRecord kubeSecret k v) with
    | some err => .error (.wrap err "cannot validate Envoy Secret")
    | none =>
      makeEnvoyOpaqueSecretLoop validate kubeSecret rest (secrets ++ [opaqueRecord kubeSecret k v])

/-- The function `makeEnvoyOpaqueSecret` (utils.go 51-76). -/
def makeEnvoyOpaqueSecret (validate : EnvoySecret → Option Error) (kubeSecret : Secret) :
    Except Error (List EnvoySecret) :=
  makeEnvoyOpaqueSecretLoop validate kubeSecret kubeSecret.Data []

/-- The function `makeEnvoySecretFromKubernetesSecret` (utils.go 11-20). -/
def makeEnvoySecretFromKubernetesSecret (validate : EnvoySecret → Option Error)
    (kubeSecret : Secret) : Except Error (List EnvoySecret) :=
  if kubeSecret.SecretType = SecretTypeTLS then makeEnvoyTLSSecret validate kubeSecret
  else if kubeSecret.SecretType = SecretTypeOpaque then makeEnvoyOpaqueSecret validate kubeSecret
  else .error (.errorf ("unsupported secret type " ++ kubeSecret.SecretType))

/-! ## The generic tree search (`xdsresourcebuilder.go` 319-337, 397-415) -/

/-- The generic document `json.Unmarshal` decodes into `interface{}`: nil, bool,
float64 (by its bit pattern), string, `[]interface{}` and
`map[string]interface{}`. -/
inductive Json where
  | null
  | bool (b : Bool)
  | num (bits : Nat)
  | str (s : String)
  | arr (items : List Json)
  | obj (fields : List (String × Json))

mutual
/-- The function `findSDSNames`; `sprintv` is `fmt.Sprintf("%v", ·)`, and a key
that is absent from a mapping reads as nil. -/
def findSDSNames (sprintv : Json → String) : Json → String → List String
  | .obj value, fieldName =>
    findSDSNamesFields sprintv ((GoMap.get value "name").getD .null) value fieldName
  | .arr value, fieldName => findSDSNamesItems sprintv value fieldName
  | _, _ => []
/-- The `range` loop of `findSDSNames` over the entries of a mapping whose
`name` entry is `nameValue`. -/
def findSDSNamesFields (sprintv : Json → String) (nameValue : Json) :
    List (String × Json) → String → List String
  | [], _ => []
  | (k, v) :: rest, fieldName =>
    ((if k = fieldName then [sprintv nameValue] else []) ++ findSDSNames sprintv v fieldName)
      ++ findSDSNamesFields sprintv nameValue rest fieldName
/-- The `range` loop of `findSDSNames` over the elements of a sequence. -/
def findSDSNamesItems (sprintv : Json → String) : List Json → String → List String
  | [], _ => []
  | item :: rest, fieldName =>
    findSDSNames sprintv item fieldName ++ findSDSNamesItems sprintv rest fieldName
end

mutual
/-- The function `findClusterNames`; `sprintv` is `fmt.Sprintf("%v", ·)`. -/
def findClusterNames (sprintv : Json → String) : Json → String → List String
  | .obj value, fieldName => findClusterNamesFields sprintv value fieldName
  | .arr value, fieldName => findClusterNamesItems sprintv value fieldName
  | _, _ => []
/-- The `range` loop of `findClusterNames` over the entries of a mapping. -/
def findClusterNamesFields (sprintv : Json → String) :
    List (String × Json) → String → List String
  | [], _ => []
  | (k, v) :: rest, fieldName =>
    ((if k = fieldName then [sprintv v] else []) ++ findClusterNames sprintv v fieldName)
      ++ findClusterNamesFields sprintv rest fieldName
/-- The `range` loop of `findClusterNames` over the elements of a sequence. -/
def findClusterNamesItems (sprintv : Json → String) : List Json → String → List String
  | [], _ => []
  | item :: rest, fieldName =>
    findClusterNames sprintv item fieldName ++ findClusterNamesItems sprintv rest fieldName
end

mutual
/-- A tree is a Go value when the keys of each of its mappings are pairwise
distinct, as the keys of a Go map are. -/
def Json.distinctKeys : Json → Bool
  | .obj fields => decide (GoMap.keys fields).Nodup && Json.distinctKeysFields fields
  | .arr items => Json.distinctKeysItems items
  | _ => true
/-- Every value of a mapping has pairwise distinct keys. -/
def Json.distinctKeysFields : List (String × Json) → Bool
  | [] => true
  | (_, v) :: rest => Json.distinctKeys v && Json.distinctKeysFields rest
/-- Every element of a sequence has pairwise distinct keys. -/
def Json.distinctKeysItems : List Json → Bool
  | [] => true
  | item :: rest => Json.distinctKeys item && Json.distinctKeysItems rest
end

mutual
/-- The mapping nodes of a tree, at any depth, each with its entries. -/
def Json.mappings : Json → List (List (String × Json))
  | .obj fields => fields :: Json.mappingsFields fields
  | .arr items => Json.mappingsItems items
  | _ => []
/-- The mapping nodes beneath the values of a mapping. -/
def Json.mappingsFields : List (String × Json) → List (List (String × Json))
  | [] => []
  | (_, v) :: rest => Json.mappings v ++ Json.mappingsFields rest
/-- The mapping nodes beneath the elements of a sequence. -/
def Json.mappingsItems : List Json → List (List (String × Json))
  | [] => []
  | item :: rest => Json.mappings item ++ Json.mappingsItems rest
end

/-- Of a list of mappings, those that contain the marker key, each giving the
value under its `name` key. -/
def namesOfMarked (sprintv : Json → String) (key : String)
    (ms : List (List (String × Json))) : List String :=
  (ms.filter (fun m => (GoMap.get m key).isSome)).map
    (fun m => sprintv ((GoMap.get m "name").getD .null))

/-- The search as the spec words it: one result for each mapping node, at any
depth, that contains the marker key, namely the value under `name` there. -/
def markedNames (sprintv : Json → String) (tree : Json) (key : String) : List String :=
  namesOfMarked sprintv key (Json.mappings tree)

/-! ## The resource builder (`xdsresourcebuilder.go`): data -/

/-- The bytes of a `runtime.RawExtension`. -/
abbrev Raw := String

/-- The message `anypb.Any`. -/
structure Any where
  TypeUrl : String
  Value : Bytes

/-- The message `accesslogv3.AccessLog`: its name, its filter as an opaque
document, and its `ConfigType`, which is a typed config or nil. -/
structure AccessLog where
  Name : String
  Filter : Json
  ConfigType : Option Any

/-- The message `filev3.FileAccessLog`: its path and its other fields. -/
structure FileAccessLog where
  Path : String
  Rest : Json

/-- A route `routev3.Route`, which the builder never looks into. -/
abbrev Route := Json

/-- An upgrade config `HttpConnectionManager_UpgradeConfig`. -/
abbrev UpgradeConfig := Json

/-- The RBAC filter message `VirtualServiceRBACFilter` returns. -/
abbrev RBAC := Json

/-- The message `hcmv3.HttpFilter`: name, typed config, other fields. -/
structure HttpFilter where
  Name : String
  ConfigType : Option Any
  Rest : Json

/-- The message `clusterv3.Cluster`: its proxy-native name and other fields. -/
structure Cluster where
  Name : String
  Rest : Json

/-- The message `routev3.VirtualHost`. -/
structure VirtualHost where
  Name : String
  Domains : List String
  Routes : List Route
  RequestHeadersToAdd : List Json
  Rest : Json

/-- The message `routev3.RouteConfiguration`, of which the builder sets the
name and the virtual hosts. -/
structure RouteConfiguration where
  Name : String
  VirtualHosts : List VirtualHost

/-- The fields of the `v1alpha1.AccessLogConfig` object the builder reads. -/
structure AccessLogConfig where
  Annotations : GoMap String
  Spec : Raw

/-- The fields of a `v1alpha1.Cluster` object the builder reads. -/
structure ClusterCR where
  Namespace : String
  Name : String
  Spec : Raw

/-- The `Spec` of `v1alpha1.VirtualService`. -/
structure VirtualServiceSpec where
  VirtualHost : Raw
  AccessLog : Option Raw
  AccessLogConfig : Option ResourceRef
  AdditionalRoutes : List ResourceRef
  HTTPFilters : List Raw
  AdditionalHttpFilters : List ResourceRef
  UpgradeConfigs : List Raw
  TlsConfig : Option TlsConfig
  UseRemoteAddress : Option Bool

/-- The intent object `v1alpha1.VirtualService`. -/
structure VirtualService where
  Namespace : String
  Name : String
  Spec : VirtualServiceSpec

/-- The arguments `WithHttpConnectionManager` receives. -/
structure HttpConnectionManager where
  accessLog : Option AccessLog
  httpFilters : List HttpFilter
  routeConfigName : String
  statPrefixText : String
  useRemoteAddress : Bool
  upgradeConfigs : List UpgradeConfig

/-- Modelled from the spec: `filterChainBuilder` is declared outside `src/`. It
collects a downstream TLS context naming a credential, a match predicate over
domains and the HTTP connection manager configuration. -/
structure filterChainBuilder where
  downstreamTlsContext : Option String
  filterChainMatch : Option (List String)
  httpConnectionManager : Option HttpConnectionManager

/-- Modelled from the spec: the filter chain `filterChainBuilder.Build` returns:
a downstream TLS context (absent if no TLS), a domain-match predicate, and the
embedded HTTP connection manager configuration. -/
structure FilterChain where
  Name : String
  DownstreamTlsContext : Option String
  FilterChainMatch : Option (List String)
  HttpConnectionManager : Option HttpConnectionManager

/-- What the builder uses of the world outside `src/`: the message constants of
`pkg/errors` and `pkg/options`, protobuf decoding and validation,
`encoding/json` and `fmt`, the Kubernetes client, and helpers of `api/v1alpha1`
and `pkg/utils/k8s`. -/
structure Env where
  DiscoverNotFoundMessage : String
  MultipleAccessLogConfigMessage : String
  UnmarshalMessage : String
  CannotValidateCacheResourceMessage : String
  GetFromKubernetesMessage : String
  AccessLogAutoGeneratedFilenameBool : String
  ConvertTypeErrorMessage : String
  AutoGeneratedFilename : String
  unmarshalAccessLog : Raw → Except Error AccessLog
  validateAccessLog : AccessLog → Option Error
  unmarshalFileAccessLog : Any → Except Error FileAccessLog
  anyNew : FileAccessLog → Except Error Any
  unmarshalVirtualHost : Raw → Except Error VirtualHost
  validateVirtualHost : VirtualHost → Option Error
  unmarshalRoute : Raw → Except Error Route
  UnmarshalAndValidateHTTPFilter : Raw → Except Error HttpFilter
  unmarshalUpgradeConfig : Raw → Except Error UpgradeConfig
  validateUpgradeConfig : UpgradeConfig → Option Error
  unmarshalCluster : Raw → Except Error Cluster
  validateRouteConfiguration : RouteConfiguration → Option Error
  validateSecret : EnvoySecret → Option Error
  validateFilterChain : FilterChain → Option Error
  marshalFrom : RBAC → Except Error Any
  marshalRoute : Route → Except Error String
  marshalHttpFilter : HttpFilter → Except Error String
  jsonUnmarshal : String → Except Error Json
  sprintv : Json → String
  getSecret : String → String → Except Error Secret
  getAccessLogConfig : String → String → Except Error AccessLogConfig
  getRoute : String → String → Except Error (List Raw)
  getHttpFilter : String → String → Except Error (List Raw)
  listClusters : String → Except Error (List ClusterCR)
  VirtualServiceRBACFilter : VirtualService → Except Error (Option RBAC)
  GetClusterByxDSName : String → String → Except Error (Option ClusterCR)
  SplitResourceName : String → Except Error (String × String)

/-- The struct `XdsResourceBuilder`. -/
structure XdsResourceBuilder where
  name : String
  virtualHost : VirtualHost
  accessLog : Option AccessLog
  httpFilters : List HttpFilter
  routeConfig : RouteConfiguration
  certificatesWithDomains : Option (GoMap (List String))
  useRemoteAddress : Bool
  upgradeConfigs : List UpgradeConfig
  usedClusters : List Cluster
  usedSecrets : List EnvoySecret

/-- The call `errors.Wrap(err, msg)` on the error of a result. -/
def wrapError {α : Type} (r : Except Error α) (msg : String) : Except Error α :=
  match r with
  | .ok a => .ok a
  | .error err => .error (.wrap err msg)

/-- The call `errors.WrapUKS(err, msg)` on the error of a result. -/
def wrapUKSError {α : Type} (r : Except Error α) (msg : String) : Except Error α :=
  match r with
  | .ok a => .ok a
  | .error err => .error (.wrapUKS err msg)

/-- A validation (`ValidateAll`) as a result. -/
def check (r : Option Error) : Except Error Unit :=
  match r with
  | none => .ok ()
  | some err => .error err

/-- Modelled from the spec: `ResourceRef.NamespacedName` is defined outside
`src/`. The namespace of a reference defaults to the fetching intent's own
namespace when omitted. -/
def ResourceRef.NamespacedName (ref : ResourceRef) (ns : String) : String × String :=
  (ref.Namespace.getD ns, ref.Name)

/-- The library function `strconv.ParseBool`. -/
def ParseBool (s : String) : Option Bool :=
  if s = "1" ∨ s = "t" ∨ s = "T" ∨ s = "TRUE" ∨ s = "true" ∨ s = "True" then some true
  else if s = "0" ∨ s = "f" ∨ s = "F" ∨ s = "FALSE" ∨ s = "false" ∨ s = "False" then some false
  else none

/-- The call `strings.ReplaceAll(s, ".", "-")`. -/
def replaceDots (s : String) : String :=
  ⟨s.data.map (fun c => if c = '.' then '-' else c)⟩

/-! ## The resource builder: construction -/

/-- The annotation step of `buildAccessLog` (xdsresourcebuilder.go 477-504):
when the referenced object carries the auto-filename marker as a true boolean,
the path of the file-typed config gets `/{resName}.log` appended. -/
def autoGeneratedFilename (env : Env) (accessLogConfig : AccessLogConfig) (resName : String)
    (accessLog : AccessLog) : Except Error AccessLog :=
  match accessLogConfig.Annotations.get env.AutoGeneratedFilename with
  | none => .ok accessLog
  | some val =>
    match ParseBool val with
    | none => .error (.uks env.AccessLogAutoGeneratedFilenameBool)
    | some false => .ok accessLog
    | some true =>
      match accessLog.ConfigType with
      | none => .error (.uks env.ConvertTypeErrorMessage)
      | some typedConfig => do
        let fileConfig ← wrapUKSError (env.unmarshalFileAccessLog typedConfig)
          env.AccessLogAutoGeneratedFilenameBool
        let fileConfigAny ← wrapUKSError
          (env.anyNew { fileConfig with Path := fileConfig.Path ++ "/" ++ resName ++ ".log" })
          "failed to marshal fileConfig to anypb"
        .ok { accessLog with ConfigType := some fileConfigAny }

/-- The function `buildAccessLog` (xdsresourcebuilder.go 436-512). -/
def buildAccessLog (env : Env) (vs : VirtualService) (resName : String) :
    Except Error (Option AccessLog) :=
  match vs.Spec.AccessLog, vs.Spec.AccessLogConfig with
  | none, none => .ok none
  | some _, some _ => .error (.new env.MultipleAccessLogConfigMessage)
  | some raw, none => do
    let accessLog ← wrapUKSError (env.unmarshalAccessLog raw) env.UnmarshalMessage
    wrapUKSError (check (env.validateAccessLog accessLog)) env.CannotValidateCacheResourceMessage
    .ok (some accessLog)
  | none, some ref => do
    let accessLogConfig ← wrapError
      (env.getAccessLogConfig (ref.NamespacedName vs.Namespace).1
        (ref.NamespacedName vs.Namespace).2) env.GetFromKubernetesMessage
    let decoded ← wrapUKSError (env.unmarshalAccessLog accessLogConfig.Spec) env.UnmarshalMessage
    let accessLog ← autoGeneratedFilename env accessLogConfig resName decoded
    wrapUKSError (check (env.validateAccessLog accessLog)) env.CannotValidateCacheResourceMessage
    .ok (some accessLog)

/-- The inner loop of `buildVirtualHost` (528-534): decode the routes of one
referenced route set and append them. -/
def appendRoutes (env : Env) : List Raw → List Route → Except Error (List Route)
  | [], routes => .ok routes
  | rt :: rest, routes =>
    match wrapUKSError (env.unmarshalRoute rt) env.UnmarshalMessage with
    | .error err => .error err
    | .ok route => appendRoutes env rest (routes ++ [route])

/-- The outer loop of `buildVirtualHost` (522-535) over the referenced sets. -/
def appendAdditionalRoutes (env : Env) (ns : String) :
    List ResourceRef → List Route → Except Error (List Route)
  | [], routes => .ok routes
  | rts :: rest, routes =>
    match wrapError (env.getRoute (rts.NamespacedName ns).1 (rts.NamespacedName ns).2)
        env.GetFromKubernetesMessage with
    | .error err => .error err
    | .ok routesSpec =>
      match appendRoutes env routesSpec routes with
      | .error err => .error err
      | .ok routes2 => appendAdditionalRoutes env ns rest routes2

/-- The function `buildVirtualHost` (xdsresourcebuilder.go 514-543). -/
def buildVirtualHost (env : Env) (vs : VirtualService) : Except Error VirtualHost := do
  let decoded ← wrapUKSError (env.unmarshalVirtualHost vs.Spec.VirtualHost) env.UnmarshalMessage
  let routes ← appendAdditionalRoutes env vs.Namespace vs.Spec.AdditionalRoutes decoded.Routes
  let virtualHost : VirtualHost := { decoded with Routes := routes }
  wrapUKSError (check (env.validateVirtualHost virtualHost)) env.CannotValidateCacheResourceMessage
  .ok virtualHost

/-- The loops of `buildHttpFilters` that decode a list of raw filters and
append them (566-572, 582-588). -/
def appendHttpFilters (env : Env) : List Raw → List HttpFilter → Except Error (List HttpFilter)
  | [], httpFilters => .ok httpFilters
  | httpFilter :: rest, httpFilters =>
    match env.UnmarshalAndValidateHTTPFilter httpFilter with
    | .error err => .error err
    | .ok hf => appendHttpFilters env rest (httpFilters ++ [hf])

/-- The outer loop of `buildHttpFilters` (576-589) over the referenced sets. -/
def appendAdditionalHttpFilters (env : Env) (ns : String) :
    List ResourceRef → List HttpFilter → Except Error (List HttpFilter)
  | [], httpFilters => .ok httpFilters
  | hfs :: rest, httpFilters =>
    match wrapError (env.getHttpFilter (hfs.NamespacedName ns).1 (hfs.NamespacedName ns).2)
        env.GetFromKubernetesMessage with
    | .error err => .error err
    | .ok hfSpec =>
      match appendHttpFilters env hfSpec httpFilters with
      | .error err => .error err
      | .ok httpFilters2 => appendAdditionalHttpFilters env ns rest httpFilters2

/-- The function `buildHttpFilters` (xdsresourcebuilder.go 545-593). -/
def buildHttpFilters (env : Env) (vs : VirtualService) : Except Error (List HttpFilter) := do
  let rbacFilter ← env.VirtualServiceRBACFilter vs
  let withRbac ←
    (match rbacFilter with
    | none => (.ok [] : Except Error (List HttpFilter))
    | some rbac =>
      match env.marshalFrom rbac with
      | .error err => .error err
      | .ok typedConfig =>
        .ok ([] ++ [{ Name := "exc.filters.http.rbac", ConfigType := some typedConfig,
                      Rest := .null }]))
  let inline ← appendHttpFilters env vs.Spec.HTTPFilters withRbac
  appendAdditionalHttpFilters env vs.Namespace vs.Spec.AdditionalHttpFilters inline

/-- The function `buildRouteConfiguration` (xdsresourcebuilder.go 417-434). -/
def buildRouteConfiguration (env : Env) (name : String) (vh : VirtualHost) :
    Except Error RouteConfiguration :=
  let routeConfig : RouteConfiguration :=
    { Name := name
      VirtualHosts := [{ Name := name
                         Domains := ["*"]
                         Routes := vh.Routes
                         RequestHeadersToAdd := vh.RequestHeadersToAdd
                         Rest := .null }] }
  match env.validateRouteConfiguration routeConfig with
  | some err => .error (.wrapUKS err env.CannotValidateCacheResourceMessage)
  | none => .ok routeConfig

/-- The function `useRemoteAddress` (xdsresourcebuilder.go 595-607). -/
def useRemoteAddress (vs : VirtualService) : Bool :=
  match vs.Spec.UseRemoteAddress with
  | some b => b
  | none => false

/-- The loop of `buildUpgradeConfigs` (612-622); on an error the configs built
so far are returned next to it. -/
def buildUpgradeConfigsLoop (env : Env) :
    List Raw → List UpgradeConfig → List UpgradeConfig × Option Error
  | [], upgradeConfigs => (upgradeConfigs, none)
  | upgradeConfig :: rest, upgradeConfigs =>
    match env.unmarshalUpgradeConfig upgradeConfig with
    | .error err => (upgradeConfigs, some (.wrapUKS err env.UnmarshalMessage))
    | .ok uc =>
      match env.validateUpgradeConfig uc with
      | some err => (upgradeConfigs, some (.wrapUKS err env.CannotValidateCacheResourceMessage))
      | none => buildUpgradeConfigsLoop env rest (upgradeConfigs ++ [uc])

/-- The function `buildUpgradeConfigs` (xdsresourcebuilder.go 609-626). -/
def buildUpgradeConfigs (env : Env) (vs : VirtualService) : List UpgradeConfig × Option Error :=
  buildUpgradeConfigsLoop env vs.Spec.UpgradeConfigs []

/-- The closure `getEnvoySecret` of `fillUsedSecrets` (259-267). -/
def getEnvoySecret (env : Env) (ns name : String) : Except Error (List EnvoySecret) :=
  match env.getSecret ns name with
  | .error err => .error (.wrap err "cannot get secret")
  | .ok kubeSecret => makeEnvoySecretFromKubernetesSecret env.validateSecret kubeSecret

/-- The secret loops of `fillUsedSecrets` (270-282 and 299-311) over a list of
secret names; `splitMessage` is the message the split error is wrapped with. -/
def appendSecrets (env : Env) (splitMessage : String) :
    List String → List EnvoySecret → Except Error (List EnvoySecret)
  | [], v3Secrets => .ok v3Secrets
  | secretName :: rest, v3Secrets =>
    match env.SplitResourceName secretName with
    | .error err => .error (.wrap err splitMessage)
    | .ok (ns, name) =>
      match getEnvoySecret env ns name with
      | .error err => .error (.wrap err "cannot get envoy secret")
      | .ok v3Secret => appendSecrets env splitMessage rest (v3Secrets ++ v3Secret)

/-- The filter loop of `fillUsedSecrets` (285-312). -/
def appendFilterSecrets (env : Env) :
    List HttpFilter → List EnvoySecret → Except Error (List EnvoySecret)
  | [], v3Secrets => .ok v3Secrets
  | filter :: rest, v3Secrets =>
    match env.marshalHttpFilter filter with
    | .error err => .error err
    | .ok jsonData =>
      match env.jsonUnmarshal jsonData with
      | .error err => .error err
      | .ok data =>
        match appendSecrets env "cannot split secret name"
            (findSDSNames env.sprintv data "sds_config") v3Secrets with
        | .error err => .error err
        | .ok v3Secrets2 => appendFilterSecrets env rest v3Secrets2

/-- The method `fillUsedSecrets` (xdsresourcebuilder.go 253-317). -/
def fillUsedSecrets (env : Env) (xrb : XdsResourceBuilder) : Except Error XdsResourceBuilder :=
  match appendSecrets env "cannot split certificate name"
      (match xrb.certificatesWithDomains with
       | none => []
       | some m => m.keys) [] with
  | .error err => .error err
  | .ok fromCertificates =>
    match appendFilterSecrets env xrb.httpFilters fromCertificates with
    | .error err => .error err
    | .ok v3Secrets => .ok { xrb with usedSecrets := v3Secrets }

/-- The inner loop of `fillUsedClusters` (363-389) over the cluster names found
in one route. -/
def appendClusters (env : Env) (xrbName : String) :
    List String → List Cluster → Except Error (List Cluster)
  | [], v3Clusters => .ok v3Clusters
  | clusterName :: rest, v3Clusters =>
    match env.SplitResourceName xrbName with
    | .error err => .error (.wrap err "cannot split secret name")
    | .ok (ns, _) =>
      match env.GetClusterByxDSName ns clusterName with
      | .error err => .error (.wrap err "cannot get cluster CR name")
      | .ok none => appendClusters env xrbName rest v3Clusters
      | .ok (some kubeCluster) =>
        match env.unmarshalCluster kubeCluster.Spec with
        | .error err => .error (.wrap err env.UnmarshalMessage)
        | .ok v3Cluster => appendClusters env xrbName rest (v3Clusters ++ [v3Cluster])

/-- The route loop of `fillUsedClusters` (349-390); a document that does not
decode ends the process (`log.Fatalf`), which is the error the decoder gave. -/
def appendRouteClusters (env : Env) (xrbName : String) :
    List Route → List Cluster → Except Error (List Cluster)
  | [], v3Clusters => .ok v3Clusters
  | route :: rest, v3Clusters =>
    match env.marshalRoute route with
    | .error err => .error err
    | .ok jsonData =>
      match env.jsonUnmarshal jsonData with
      | .error err => .error err
      | .ok data =>
        match appendClusters env xrbName (findClusterNames env.sprintv data "Cluster")
            v3Clusters with
        | .error err => .error err
        | .ok v3Clusters2 => appendRouteClusters env xrbName rest v3Clusters2

/-- The method `fillUsedClusters` (xdsresourcebuilder.go 343-395). -/
def fillUsedClusters (env : Env) (xrb : XdsResourceBuilder) : Except Error XdsResourceBuilder :=
  match appendRouteClusters env xrb.name xrb.virtualHost.Routes [] with
  | .error err => .error err
  | .ok v3Clusters => .ok { xrb with usedClusters := v3Clusters }

/-- The TLS step of `New` (xdsresourcebuilder.go 78-91). -/
def provideCertificates (env : Env) (vs : VirtualService) (secretsIndex : GoMap Secret)
    (virtualHost : VirtualHost) : Except Error (Option (GoMap (List String))) :=
  match vs.Spec.TlsConfig with
  | none => .ok none
  | some tlsConfig =>
    match Provide env.DiscoverNotFoundMessage
        (NewTlsFactory tlsConfig vs.Namespace secretsIndex) virtualHost.Domains with
    | (_, some err) => .error (.wrap err "cannot provide TLS certificates")
    | (certificatesWithDomains, none) => .ok certificatesWithDomains

/-- The constructor `New` (xdsresourcebuilder.go 45-115). -/
def New (env : Env) (vs : VirtualService) (secretsIndex : GoMap Secret) :
    Except Error XdsResourceBuilder := do
  let resourceName := GetResourceName vs.Namespace vs.Name
  let accessLog ← wrapError (buildAccessLog env vs resourceName)
    "cannot create Access Log for Virtual Service"
  let virtualHost ← wrapError (buildVirtualHost env vs)
    "cannot create Virtual Host for Virtual Service"
  let httpFilters ← wrapError (buildHttpFilters env vs)
    "cannot create HTTP Filters for Virtual Service"
  let routeConfig ← wrapError (buildRouteConfiguration env resourceName virtualHost)
    "cannot create Route Configs for Virtual Service"
  let upgradeConfigs ←
    (match buildUpgradeConfigs env vs with
    | (_, some err) =>
      (.error (.wrap err "cannot create Upgrade Configs for Virtual Service") :
        Except Error (List UpgradeConfig))
    | (upgradeConfigs, none) => .ok upgradeConfigs)
  let certificatesWithDomains ← provideCertificates env vs secretsIndex virtualHost
  let xdsResourceBuilder : XdsResourceBuilder :=
    { name := GetResourceName vs.Namespace vs.Name
      virtualHost := virtualHost
      accessLog := accessLog
      httpFilters := httpFilters
      routeConfig := routeConfig
      useRemoteAddress := useRemoteAddress vs
      upgradeConfigs := upgradeConfigs
      certificatesWithDomains := certificatesWithDomains
      usedClusters := []
      usedSecrets := [] }
  let withSecrets ← wrapError (fillUsedSecrets env xdsResourceBuilder) "cannot fill used secrets"
  wrapError (fillUsedClusters env withSecrets) "cannot fill used clusters"

/-! ## The resource builder: artifacts -/

/-- Modelled from the spec: `WithDownstreamTlsContext` is defined outside
`src/`. It sets a downstream TLS context naming the credential. -/
def filterChainBuilder.WithDownstreamTlsContext (b : filterChainBuilder) (secret : String) :
    filterChainBuilder :=
  { b with downstreamTlsContext := some secret }

/-- Modelled from the spec: `WithFilterChainMatch` is defined outside `src/`.
It sets the match predicate over the given domains. -/
def filterChainBuilder.WithFilterChainMatch (b : filterChainBuilder) (domains : List String) :
    filterChainBuilder :=
  { b with filterChainMatch := some domains }

/-- Modelled from the spec: `WithHttpConnectionManager` is defined outside
`src/`. It sets the shared HTTP connection manager configuration. -/
def filterChainBuilder.WithHttpConnectionManager (b : filterChainBuilder)
    (accessLog : Option AccessLog) (httpFilters : List HttpFilter)
    (routeConfigName statPrefixText : String) (useRemote : Bool)
    (upgradeConfigs : List UpgradeConfig) : filterChainBuilder :=
  let hcm : HttpConnectionManager :=
    { accessLog := accessLog
      httpFilters := httpFilters
      routeConfigName := routeConfigName
      statPrefixText := statPrefixText
      useRemoteAddress := useRemote
      upgradeConfigs := upgradeConfigs }
  { b with httpConnectionManager := some hcm }

/-- Modelled from the spec: `filterChainBuilder.Build` is defined outside
`src/`. The chain carries what the builder collected, and is returned when it
passes the proxy schema validation. -/
def filterChainBuilder.Build (env : Env) (b : filterChainBuilder) (name : String) :
    Except Error FilterChain :=
  let chain : FilterChain :=
    { Name := name
      DownstreamTlsContext := b.downstreamTlsContext
      FilterChainMatch := b.filterChainMatch
      HttpConnectionManager := b.httpConnectionManager }
  match env.validateFilterChain chain with
  | some err => .error err
  | none => .ok chain

/-- The loop of `BuildFilterChains` (xdsresourcebuilder.go 125-141) over the
remaining entries of the grouping: the shared chain builder, the builder whose
virtual host is narrowed, and the chains so far. The builder is returned as the
loop left it. -/
def buildFilterChainsLoop (env : Env) (statPrefixText : String) :
    GoMap (List String) → filterChainBuilder → XdsResourceBuilder → List FilterChain →
      Except Error (List FilterChain) × XdsResourceBuilder
  | [], _, xrb, chains => (.ok chains, xrb)
  | (certName, domains) :: rest, b, xrb, chains =>
    let xrb2 : XdsResourceBuilder :=
      { xrb with virtualHost := { xrb.virtualHost with Domains := domains } }
    let b2 := ((b.WithDownstreamTlsContext certName).WithFilterChainMatch domains
      ).WithHttpConnectionManager xrb2.accessLog xrb2.httpFilters xrb2.name statPrefixText
        xrb2.useRemoteAddress xrb2.upgradeConfigs
    match b2.Build env xrb2.name with
    | .error err => (.error (.wrap err "failed to generate Filter Chain"), xrb2)
    | .ok f => buildFilterChainsLoop env statPrefixText rest b2 xrb2 (chains ++ [f])

/-- The method `BuildFilterChains` (xdsresourcebuilder.go 117-161), with the
builder as the call leaves it. -/
def BuildFilterChains (env : Env) (xrb : XdsResourceBuilder) :
    Except Error (List FilterChain) × XdsResourceBuilder :=
  let b : filterChainBuilder :=
    { downstreamTlsContext := none, filterChainMatch := none, httpConnectionManager := none }
  let statPrefixText := replaceDots xrb.name
  match xrb.certificatesWithDomains with
  | some certificatesWithDomains =>
    buildFilterChainsLoop env statPrefixText certificatesWithDomains b xrb []
  | none =>
    match ((b.WithHttpConnectionManager xrb.accessLog xrb.httpFilters xrb.name statPrefixText
        xrb.useRemoteAddress xrb.upgradeConfigs).WithFilterChainMatch
          xrb.virtualHost.Domains).Build env xrb.name with
    | .error err => (.error (.wrap err "failed to generate Filter Chain"), xrb)
    | .ok f => (.ok ([] ++ [f]), xrb)

/-- The builder after `n` calls of `BuildFilterChains`. -/
def afterBuildFilterChains (env : Env) : Nat → XdsResourceBuilder → XdsResourceBuilder
  | 0, xrb => xrb
  | n + 1, xrb => afterBuildFilterChains env n (BuildFilterChains env xrb).2

/-- The method `GetRouteConfiguration` (xdsresourcebuilder.go 163-165). -/
def GetRouteConfiguration (xrb : XdsResourceBuilder) : RouteConfiguration :=
  xrb.routeConfig

/-- The method `GetUsedSecrets` (xdsresourcebuilder.go 167-169). -/
def GetUsedSecrets (xrb : XdsResourceBuilder) : List EnvoySecret :=
  xrb.usedSecrets

/-- The method `GetUsedClusters` (xdsresourcebuilder.go 339-341). -/
def GetUsedClusters (xrb : XdsResourceBuilder) : List Cluster :=
  xrb.usedClusters

/-- The loop of `getUsedSecretsResourceRefs` (195-206); a name that does not
split ends the method with a nil list. -/
def getUsedSecretsResourceRefsLoop (env : Env) :
    List EnvoySecret → List ResourceRef → List ResourceRef
  | [], resourceRefs => resourceRefs
  | secretV3 :: rest, resourceRefs =>
    match env.SplitResourceName secretV3.Name with
    | .error _ => []
    | .ok (ns, name) =>
      getUsedSecretsResourceRefsLoop env rest
        (resourceRefs ++ [{ Namespace := some ns, Name := name }])

/-- The method `getUsedSecretsResourceRefs` (xdsresourcebuilder.go 192-209). -/
def getUsedSecretsResourceRefs (env : Env) (xrb : XdsResourceBuilder) : List ResourceRef :=
  getUsedSecretsResourceRefsLoop env xrb.usedSecrets []

/-- The inner loop of `getUsedClustersResourceRefs` (233-247) over the listed
cluster objects, for one used cluster name. -/
def matchClusterLoop (env : Env) (clusterV3Name : String) :
    List ClusterCR → List ResourceRef → List ResourceRef × Option Error
  | [], resourceRefs => (resourceRefs, none)
  | clusterKube :: rest, resourceRefs =>
    match env.unmarshalCluster clusterKube.Spec with
    | .error err => (resourceRefs, some err)
    | .ok clusterKubeV3 =>
      if clusterKubeV3.Name = clusterV3Name then
        matchClusterLoop env clusterV3Name rest
          (resourceRefs ++
            [{ Name := clusterKube.Name
               Namespace := some
                 (if clusterKube.Namespace = "" then "default" else clusterKube.Namespace) }])
      else matchClusterLoop env clusterV3Name rest resourceRefs

/-- The outer loop of `getUsedClustersResourceRefs` (230-248) over the used
clusters. -/
def usedClustersLoop (env : Env) (items : List ClusterCR) :
    List Cluster → List ResourceRef → List ResourceRef × Option Error
  | [], resourceRefs => (resourceRefs, none)
  | clusterV3 :: rest, resourceRefs =>
    match matchClusterLoop env clusterV3.Name items resourceRefs with
    | (refs, some err) => (refs, some err)
    | (refs, none) => usedClustersLoop env items rest refs

/-- The method `getUsedClustersResourceRefs` (xdsresourcebuilder.go 211-251). -/
def getUsedClustersResourceRefs (env : Env) (xrb : XdsResourceBuilder) (ns : String) :
    List ResourceRef × Option Error :=
  match env.listClusters (if ns = "default" then "" else ns) with
  | .error err => ([], some err)
  | .ok items => usedClustersLoop env items xrb.usedClusters []

/-- The manifest `GetUsedResources` returns: the entries of its two keys,
`v1alpha1.SecretType` and `v1alpha1.ClusterType`. -/
structure UsedResources where
  SecretType : List ResourceRef
  ClusterType : List ResourceRef

/-- The method `GetUsedResources` (xdsresourcebuilder.go 171-190). -/
def GetUsedResources (env : Env) (xrb : XdsResourceBuilder) (ns : String) :
    Except Error UsedResources :=
  match getUsedClustersResourceRefs env xrb ns with
  | (_, some err) => .error err
  | (clusters, none) =>
    .ok { SecretType := getUsedSecretsResourceRefs env xrb, ClusterType := clusters }

/-- The grouping key of a domain: the resource name of the credential the index
lookups of `provideAutoDiscovery` find for it. -/
def credentialKey (index : GoMap Secret) (domain : String) : Option String :=
  (lookupCertificate index domain).map (fun s => GetResourceName s.Namespace s.Name)

/-- The entry of a key after a run of the loop: the entry it had before, with
the newly resolved domains of that key appended. -/
def mergeGroup (old : Option (List String)) (added : List String) : Option (List String) :=
  match old, added with
  | none, [] => none
  | none, d :: ds => some (d :: ds)
  | some a, ds => some (a ++ ds)

/-- The HTTP connection manager configuration that every chain of a builder
receives (xdsresourcebuilder.go 129-135 and 145-152). -/
def sharedManager (xrb : XdsResourceBuilder) : HttpConnectionManager :=
  { accessLog := xrb.accessLog
    httpFilters := xrb.httpFilters
    routeConfigName := xrb.name
    statPrefixText := replaceDots xrb.name
    useRemoteAddress := xrb.useRemoteAddress
    upgradeConfigs := xrb.upgradeConfigs }

/-- The chain built for one entry of the grouping: a TLS context naming the
credential of the entry and a match over its domains. -/
def groupChain (xrb : XdsResourceBuilder) (entry : String × List String) : FilterChain :=
  { Name := xrb.name
    DownstreamTlsContext := some entry.1
    FilterChainMatch := some entry.2
    HttpConnectionManager := some (sharedManager xrb) }

/-- The chain built without TLS: no TLS context, and a match over the domain
list of the virtual host. -/
def plainChain (xrb : XdsResourceBuilder) : FilterChain :=
  { Name := xrb.name
    DownstreamTlsContext := none
    FilterChainMatch := some xrb.virtualHost.Domains
    HttpConnectionManager := some (sharedManager xrb) }

/-! ## Notions for the used-resource manifest and for enumeration orders -/

/-- The reference `getUsedClustersResourceRefs` appends for a listed cluster
object (xdsresourcebuilder.go 239-245): its name, and its namespace with the
empty namespace read as `default`. -/
def clusterRef (clusterKube : ClusterCR) : ResourceRef :=
  { Name := clusterKube.Name
    Namespace := some
      (if clusterKube.Namespace = "" then "default" else clusterKube.Namespace) }

/-- The references of the listed cluster objects whose payload decodes to a
cluster of the given proxy-native name, in list order. -/
def matchingRefs (env : Env) (clusterV3Name : String) (items : List ClusterCR) :
    List ResourceRef :=
  items.filterMap (fun clusterKube =>
    match env.unmarshalCluster clusterKube.Spec with
    | .ok clusterKubeV3 =>
      if clusterKubeV3.Name = clusterV3Name then some (clusterRef clusterKube) else none
    | .error _ => none)

mutual
/-- The second tree is the first one with the entries of its mappings, at any
depth, enumerated in another order: the same Go value, visited differently. -/
def Json.Reordered : Json → Json → Prop
  | .obj fields, t =>
    ∃ mid other, t = .obj other ∧ Json.ReorderedFields fields mid ∧ mid.Perm other
  | .arr items, t => ∃ other, t = .arr other ∧ Json.ReorderedItems items other
  | .null, t => t = .null
  | .bool b, t => t = .bool b
  | .num n, t => t = .num n
  | .str text, t => t = .str text
/-- Entry by entry, the same keys with reordered values. -/
def Json.ReorderedFields : List (String × Json) → List (String × Json) → Prop
  | [], other => other = []
  | (k, v) :: rest, other =>
    ∃ w tail, other = (k, w) :: tail ∧ Json.Reordered v w ∧ Json.ReorderedFields rest tail
/-- Element by element, reordered values. -/
def Json.ReorderedItems : List Json → List Json → Prop
  | [], other => other = []
  | item :: rest, other =>
    ∃ w tail, other = w :: tail ∧ Json.Reordered item w ∧ Json.ReorderedItems rest tail
end

/-! ## Scenarios -/

/-- The credential `CredA` of the auto-discovery scenario. -/
def CredA : Secret :=
  { Namespace := "certs", Name := "cred-a", SecretType := SecretTypeTLS, Data := [] }

/-- The credential `CredB` of the auto-discovery scenario. -/
def CredB : Secret :=
  { Namespace := "certs", Name := "cred-b", SecretType := SecretTypeTLS, Data := [] }

/-- The index of the scenario: an exact entry and a wildcard entry. -/
def scenarioIndex : GoMap Secret :=
  [("a.example.com", CredA), ("*.example.com", CredB)]

/-- An auto-discovery TLS intent. -/
def autoDiscoveryConfig : TlsConfig :=
  { SecretRef := none, AutoDiscovery := some true }

/-- The factory of the scenario. -/
def scenarioFactory : TlsFactory :=
  NewTlsFactory autoDiscoveryConfig "default" scenarioIndex

/-- The served domains of the scenario. -/
def scenarioDomains : List String := ["a.example.com", "b.example.com"]

/-- Served domains the last of which has no entry in the scenario index. -/
def unservedDomains : List String := ["a.example.com", "c.other.org", "b.example.com"]

/-- An explicit-secret TLS intent without a namespace. -/
def secretRefConfig : TlsConfig :=
  { SecretRef := some { Name := "cred-a", Namespace := none }, AutoDiscovery := none }

/-- The factory of an explicit-secret intent in the namespace `edge`. -/
def secretRefFactory : TlsFactory :=
  NewTlsFactory secretRefConfig "edge" scenarioIndex

/-- Splits a text at its only slash. -/
def splitAtSlash : List Char → Option (List Char × List Char)
  | [] => none
  | c :: cs =>
    if c = '/' then (if '/' ∈ cs then none else some ([], cs))
    else (splitAtSlash cs).map (fun p => (c :: p.1, p.2))

/-- A world for the scenarios: every payload decodes and validates, the virtual
host serves the given domains, every secret exists as a keypair, there are no
cluster objects, and a resource name splits at its only slash. -/
def scenarioEnv (domains : List String) : Env :=
  { DiscoverNotFoundMessage := "not found"
    MultipleAccessLogConfigMessage := "multiple access log config"
    UnmarshalMessage := "cannot unmarshal"
    CannotValidateCacheResourceMessage := "cannot validate"
    GetFromKubernetesMessage := "cannot get from Kubernetes"
    AccessLogAutoGeneratedFilenameBool := "auto-generated filename is not a boolean"
    ConvertTypeErrorMessage := "cannot convert type"
    AutoGeneratedFilename := "auto-generated-filename"
    unmarshalAccessLog := fun raw => .ok { Name := raw, Filter := .null, ConfigType := none }
    validateAccessLog := fun _ => none
    unmarshalFileAccessLog := fun _ => .ok { Path := "/var/log", Rest := .null }
    anyNew := fun _ => .ok { TypeUrl := "file", Value := [] }
    unmarshalVirtualHost := fun raw =>
      .ok { Name := raw, Domains := domains, Routes := [], RequestHeadersToAdd := [],
            Rest := .null }
    validateVirtualHost := fun _ => none
    unmarshalRoute := fun raw => .ok (.str raw)
    UnmarshalAndValidateHTTPFilter := fun raw => .ok { Name := raw, ConfigType := none, Rest := .null }
    unmarshalUpgradeConfig := fun raw => .ok (.str raw)
    validateUpgradeConfig := fun _ => none
    unmarshalCluster := fun raw => .ok { Name := raw, Rest := .null }
    validateRouteConfiguration := fun _ => none
    validateSecret := fun _ => none
    validateFilterChain := fun _ => none
    marshalFrom := fun _ => .ok { TypeUrl := "rbac", Value := [] }
    marshalRoute := fun _ => .ok "{}"
    marshalHttpFilter := fun _ => .ok "{}"
    jsonUnmarshal := fun _ => .ok (.obj [])
    sprintv := fun v =>
      match v with
      | .str t => t
      | _ => "<nil>"
    getSecret := fun ns name =>
      .ok { Namespace := ns, Name := name, SecretType := SecretTypeTLS,
            Data := [("tls.crt", [1]), ("tls.key", [2])] }
    getAccessLogConfig := fun _ _ => .ok { Annotations := [], Spec := "{}" }
    getRoute := fun _ _ => .ok []
    getHttpFilter := fun _ _ => .ok []
    listClusters := fun _ => .ok []
    VirtualServiceRBACFilter := fun _ => .ok none
    GetClusterByxDSName := fun _ _ => .ok none
    SplitResourceName := fun text =>
      match splitAtSlash text.data with
      | some p => .ok (⟨p.1⟩, ⟨p.2⟩)
      | none => .error (.new "invalid resource name") }

/-- The intent `edge/web` of the scenarios, with the given TLS intent. -/
def scenarioService (tls : Option TlsConfig) : VirtualService :=
  { Namespace := "edge"
    Name := "web"
    Spec :=
      { VirtualHost := "web"
        AccessLog := none
        AccessLogConfig := none
        AdditionalRoutes := []
        HTTPFilters := []
        AdditionalHttpFilters := []
        UpgradeConfigs := []
        TlsConfig := tls
        UseRemoteAddress := none } }

/-- An opaque credential with the two blobs `ca` and `crl`. -/
def trustBundle : Secret :=
  { Namespace := "certs", Name := "trust", SecretType := SecretTypeOpaque,
    Data := [("ca", [1, 2]), ("crl", [3])] }

/-- A keypair credential. -/
def keypairSecret : Secret :=
  { Namespace := "certs", Name := "cred-a", SecretType := SecretTypeTLS,
    Data := [("tls.crt", [1]), ("tls.key", [2])] }

/-- A validation that accepts every record. -/
def acceptAll (_ : EnvoySecret) : Option Error := none

/-- The rendering of the scenarios: a string as itself, anything else as nil. -/
def scenarioSprintv (v : Json) : String :=
  match v with
  | .str t => t
  | _ => "<nil>"

/-- A filter document with an SDS reference at the top and a second one nested
beneath the marker key of the first. -/
def nestedSdsTree : Json :=
  .obj [("name", .str "certs/outer"),
        ("sds_config", .obj [("inner", .arr [.obj [("sds_config", .obj []),
                                                    ("name", .str "certs/inner")],
                                             .str "leaf"])])]

/-- The builder `New` returns for the auto-discovery scenario, before any
chain is built. -/
def scenarioBuilder : XdsResourceBuilder :=
  { name := "edge/web"
    virtualHost :=
      { Name := "web", Domains := scenarioDomains, Routes := [], RequestHeadersToAdd := [],
        Rest := .null }
    accessLog := none
    httpFilters := []
    routeConfig :=
      { Name := "edge/web"
        VirtualHosts :=
          [{ Name := "edge/web", Domains := ["*"], Routes := [], RequestHeadersToAdd := [],
             Rest := .null }] }
    certificatesWithDomains :=
      some [("certs/cred-a", ["a.example.com"]), ("certs/cred-b", ["b.example.com"])]
    useRemoteAddress := false
    upgradeConfigs := []
    usedClusters := []
    usedSecrets :=
      [{ Name := "certs/cred-a", Payload := .TlsCertificate [1] [2] },
       { Name := "certs/cred-b", Payload := .TlsCertificate [1] [2] }] }

/-- The builder `New` returns for the scenario intent without TLS intent. -/
def plainBuilder : XdsResourceBuilder :=
  { scenarioBuilder with certificatesWithDomains := none, usedSecrets := [] }

/-- The world of the scenarios with the validation of the proxy schema for
virtual hosts: a virtual host without domains is rejected. -/
def validatingEnv : Env :=
  { scenarioEnv scenarioDomains with
    validateVirtualHost := fun vh =>
      if vh.Domains = [] then some (.new "Domains: value must contain at least 1 item")
      else none }

/-- A world in which nothing outside the intent can be read: every fetch of the
store fails and no payload decodes. -/
def unreachableEnv : Env :=
  { scenarioEnv [] with
    unmarshalAccessLog := fun _ => .error (.new "no payload decodes")
    unmarshalVirtualHost := fun _ => .error (.new "no payload decodes")
    unmarshalRoute := fun _ => .error (.new "no payload decodes")
    UnmarshalAndValidateHTTPFilter := fun _ => .error (.new "no payload decodes")
    unmarshalUpgradeConfig := fun _ => .error (.new "no payload decodes")
    unmarshalCluster := fun _ => .error (.new "no payload decodes")
    getSecret := fun _ _ => .error (.new "store unreachable")
    getAccessLogConfig := fun _ _ => .error (.new "store unreachable")
    getRoute := fun _ _ => .error (.new "store unreachable")
    getHttpFilter := fun _ _ => .error (.new "store unreachable")
    listClusters := fun _ => .error (.new "store unreachable")
    VirtualServiceRBACFilter := fun _ => .error (.new "store unreachable")
    GetClusterByxDSName := fun _ _ => .error (.new "store unreachable") }

/-- An intent with both an inline access log and a reference to one, and with
references to a route set and a filter set. -/
def bothLogsService : VirtualService :=
  { Namespace := "edge"
    Name := "web"
    Spec :=
      { VirtualHost := "web"
        AccessLog := some "inline"
        AccessLogConfig := some { Name := "access-log", Namespace := none }
        AdditionalRoutes := [{ Name := "routes", Namespace := none }]
        HTTPFilters := ["filter"]
        AdditionalHttpFilters := [{ Name := "filters", Namespace := none }]
        UpgradeConfigs := ["websocket"]
        TlsConfig := some autoDiscoveryConfig
        UseRemoteAddress := some true } }

/-- The builder of the auto-discovery scenario with the two entries of its
grouping enumerated in the other order. -/
def swappedBuilder : XdsResourceBuilder :=
  { scenarioBuilder with
    certificatesWithDomains :=
      some [("certs/cred-b", ["b.example.com"]), ("certs/cred-a", ["a.example.com"])] }

/-- The generic document of a route to the cluster `backend`. -/
def routeTree : Json :=
  .obj [("Action",
    .obj [("Route", .obj [("ClusterSpecifier", .obj [("Cluster", .str "backend")])])])]

/-- The cluster objects of the namespace `edge`: `backend-cr` embeds the proxy
cluster `backend`, and `other-cr` embeds `other`. -/
def clusterItems : List ClusterCR :=
  [{ Namespace := "edge", Name := "backend-cr", Spec := "backend" },
   { Namespace := "edge", Name := "other-cr", Spec := "other" }]

/-- A world in which the virtual host has two routes, both to the cluster
`backend`, and the store holds `clusterItems`. -/
def clusterEnv : Env :=
  { scenarioEnv ["a.example.com"] with
    unmarshalVirtualHost := fun raw =>
      .ok { Name := raw, Domains := ["a.example.com"], Routes := [.str "r1", .str "r2"],
            RequestHeadersToAdd := [], Rest := .null }
    jsonUnmarshal := fun _ => .ok routeTree
    GetClusterByxDSName := fun ns name =>
      if name = "backend" then .ok (some { Namespace := ns, Name := "backend-cr", Spec := name })
      else .ok none
    listClusters := fun _ => .ok clusterItems }

/-- The builder `New` returns in `clusterEnv` for the intent without TLS. -/
def clusterBuilder : XdsResourceBuilder :=
  { name := "edge/web"
    virtualHost :=
      { Name := "web", Domains := ["a.example.com"], Routes := [.str "r1", .str "r2"],
        RequestHeadersToAdd := [], Rest := .null }
    accessLog := none
    httpFilters := []
    routeConfig :=
      { Name := "edge/web"
        VirtualHosts :=
          [{ Name := "edge/web", Domains := ["*"], Routes := [.str "r1", .str "r2"],
             RequestHeadersToAdd := [], Rest := .null }] }
    certificatesWithDomains := none
    useRemoteAddress := false
    upgradeConfigs := []
    usedClusters := [{ Name := "backend", Rest := .null }, { Name := "backend", Rest := .null }]
    usedSecrets := [] }

/-- A filter document with two SDS references in sibling mappings. -/
def siblingTree : Json :=
  .obj [("token_secret", .obj [("name", .str "certs/token"), ("sds_config", .obj [])]),
        ("hmac_secret", .obj [("name", .str "certs/hmac"), ("sds_config", .obj [])])]

/-- The document `siblingTree` with the entries of each of its mappings
enumerated in the other order. -/
def siblingTreeSwapped : Json :=
  .obj [("hmac_secret", .obj [("sds_config", .obj []), ("name", .str "certs/hmac")]),
        ("token_secret", .obj [("sds_config", .obj []), ("name", .str "certs/token")])]

/-! ## Theorems -/

namespace GoMap

theorem get_set_self {V : Type} (m : GoMap V) (k : String) (v : V) :
    (m.set k v).get k = some v := by
  induction m with
  | nil => simp [set, get]
  | cons e rest ih =>
    obtain ⟨k', v'⟩ := e
    by_cases h : k' = k
    · simp [set, get, h]
    · simp [set, get, h, ih]

theorem get_set_of_ne {V : Type} (m : GoMap V) (k j : String) (v : V) (h : k ≠ j) :
    (m.set k v).get j = m.get j := by
  induction m with
  | nil => simp [set, get, h]
  | cons e rest ih =>
    obtain ⟨k', v'⟩ := e
    by_cases hk : k' = k
    · subst hk; simp [set, get, h]
    · by_cases hj : k' = j
      · subst hj; simp [set, get, hk]
      · simp [set, get, hk, hj, ih]

theorem mem_keys_iff_get {V : Type} (m : GoMap V) (k : String) :
    k ∈ m.keys ↔ (m.get k).isSome := by
  induction m with
  | nil => simp [keys, get]
  | cons e rest ih =>
    obtain ⟨k', v'⟩ := e
    by_cases h : k' = k
    · simp [keys, get, h]
    · have h2 : ¬ k = k' := fun e => h e.symm
      simp only [keys] at ih
      simp [keys, get, h, h2, ih]

theorem keys_set_nodup {V : Type} (m : GoMap V) (k : String) (v : V)
    (h : m.keys.Nodup) : (m.set k v).keys.Nodup := by
  induction m with
  | nil => simp [set, keys]
  | cons e rest ih =>
    obtain ⟨k', v'⟩ := e
    have hn : k' ∉ keys rest ∧ (keys rest).Nodup := by simpa [keys] using h
    by_cases hk : k' = k
    · subst hk; simpa [set, keys] using h
    · have hin : k' ∉ keys (set rest k v) := by
        rw [mem_keys_iff_get, get_set_of_ne _ _ _ _ (fun e => hk e.symm), ← mem_keys_iff_get]
        exact hn.1
      have := ih hn.2
      simp only [keys] at this hin
      simp [set, keys, hk, this, hin]

theorem get_eq_some_of_mem {V : Type} (m : GoMap V) (h : m.keys.Nodup) (k : String) (v : V)
    (hm : (k, v) ∈ m) : m.get k = some v := by
  induction m with
  | nil => simp at hm
  | cons e rest ih =>
    obtain ⟨k', v'⟩ := e
    have hn : k' ∉ keys rest ∧ (keys rest).Nodup := by simpa [keys] using h
    rcases List.mem_cons.1 hm with heq | hin
    · cases heq; simp [get]
    · have hne : k' ≠ k := by
        intro e; subst e
        exact hn.1 (List.mem_map_of_mem Prod.fst hin)
      simp [get, hne, ih hn.2 hin]

theorem mem_of_get_eq_some {V : Type} (m : GoMap V) (k : String) (v : V)
    (hg : m.get k = some v) : (k, v) ∈ m := by
  induction m with
  | nil => simp [get] at hg
  | cons e rest ih =>
    obtain ⟨k', v'⟩ := e
    by_cases h : k' = k
    · subst h; simp [get] at hg; simp [hg]
    · simp [get, h] at hg; simp [ih hg]

end GoMap

/-! ### The auto-discovery loop -/

theorem mergeGroup_nil (old : Option (List String)) : mergeGroup old [] = old := by
  cases old <;> simp [mergeGroup]

theorem credentialKey_of_lookup (index : GoMap Secret) (d : String) (secret : Secret)
    (h : lookupCertificate index d = some secret) :
    credentialKey index d = some (GetResourceName secret.Namespace secret.Name) := by
  simp [credentialKey, h]

/-- When every remaining domain resolves, the loop ends without error, and the
entry of each key is its old entry followed by the domains resolved to it. -/
theorem provideAutoDiscoveryLoop_ok (msg : String) (index : GoMap Secret) :
    ∀ (domains : List String) (cwd : GoMap (List String)),
      (∀ d ∈ domains, (lookupCertificate index d).isSome = true) →
      ∃ m, provideAutoDiscoveryLoop msg index domains cwd = (m, none) ∧
        (∀ k, m.get k = mergeGroup (cwd.get k)
          (domains.filter (fun d => decide (credentialKey index d = some k)))) ∧
        (cwd.keys.Nodup → m.keys.Nodup) := by
  intro domains
  induction domains with
  | nil =>
    intro cwd _
    exact ⟨cwd, rfl, fun k => by simp [mergeGroup_nil], fun h => h⟩
  | cons d rest ih =>
    intro cwd hall
    have hd : (lookupCertificate index d).isSome = true := hall d (List.mem_cons_self _ _)
    have hrest : ∀ x ∈ rest, (lookupCertificate index x).isSome = true :=
      fun x hx => hall x (List.mem_cons_of_mem _ hx)
    obtain ⟨secret, hsec⟩ := Option.isSome_iff_exists.1 hd
    have hkey := credentialKey_of_lookup index d secret hsec
    -- both branches of the map update write the old entry followed by the domain
    have step : ∀ (old : Option (List String)),
        cwd.get (GetResourceName secret.Namespace secret.Name) = old →
        ∃ m, provideAutoDiscoveryLoop msg index (d :: rest) cwd = (m, none) ∧
          (∀ k, m.get k = mergeGroup (cwd.get k)
            ((d :: rest).filter (fun d => decide (credentialKey index d = some k)))) ∧
          (cwd.keys.Nodup → m.keys.Nodup) := by
      intro old hold
      obtain ⟨m, hm, hget, hnd⟩ := ih
        (cwd.set (GetResourceName secret.Namespace secret.Name) (old.getD [] ++ [d])) hrest
      refine ⟨m, ?_, ?_, fun h => hnd (GoMap.keys_set_nodup _ _ _ h)⟩
      · cases old with
        | none => simpa [provideAutoDiscoveryLoop, hsec, hold] using hm
        | some o => simpa [provideAutoDiscoveryLoop, hsec, hold] using hm
      · intro k
        rw [hget k]
        by_cases hk : GetResourceName secret.Namespace secret.Name = k
        · subst hk
          rw [GoMap.get_set_self, hold]
          cases old <;> simp [mergeGroup, List.filter, hkey]
        · rw [GoMap.get_set_of_ne _ _ _ _ hk]
          have : ¬ credentialKey index d = some k := by
            rw [hkey]; intro e; exact hk (Option.some.inj e)
          simp [List.filter, this]
    exact step _ rfl

theorem mergeGroup_none_eq_some (l x : List String) (h : mergeGroup none l = some x) :
    x = l ∧ l ≠ [] := by
  cases l with
  | nil => simp [mergeGroup] at h
  | cons a t => simp [mergeGroup] at h; subst h; simp

theorem mergeGroup_none_of_ne_nil (l : List String) (h : l ≠ []) :
    mergeGroup none l = some l := by
  cases l with
  | nil => exact absurd rfl h
  | cons a t => rfl

theorem lookupCertificate_isSome (index : GoMap Secret) (d : String) :
    (lookupCertificate index d).isSome = true ↔
      ((index.get d).isSome = true ∨ (index.get (GetWildcardDomain d)).isSome = true) := by
  unfold lookupCertificate
  cases h : index.get d <;> simp

/-- A run of the loop that ends without error resolved every domain. -/
theorem provideAutoDiscoveryLoop_resolved (msg : String) (index : GoMap Secret) :
    ∀ (domains : List String) (cwd m : GoMap (List String)),
      provideAutoDiscoveryLoop msg index domains cwd = (m, none) →
      ∀ d ∈ domains, (lookupCertificate index d).isSome = true := by
  intro domains
  induction domains with
  | nil => intro _ _ _ d hd; simp at hd
  | cons x rest ih =>
    intro cwd m hm d hd
    cases hx : lookupCertificate index x with
    | none => simp [provideAutoDiscoveryLoop, hx] at hm
    | some secret =>
      rcases List.mem_cons.1 hd with rfl | hin
      · simp [hx]
      · cases hg : cwd.get (GetResourceName secret.Namespace secret.Name) with
        | none =>
          simp only [provideAutoDiscoveryLoop, hx, hg] at hm
          exact ih _ _ hm d hin
        | some o =>
          simp only [provideAutoDiscoveryLoop, hx, hg] at hm
          exact ih _ _ hm d hin

/-- The first domain that does not resolve ends the loop with the error that
names it, next to the map the domains before it built. -/
theorem provideAutoDiscoveryLoop_fail (msg : String) (index : GoMap Secret) (d : String)
    (post : List String) (hd : lookupCertificate index d = none) :
    ∀ (pre : List String) (cwd : GoMap (List String)),
      (∀ x ∈ pre, (lookupCertificate index x).isSome = true) →
      provideAutoDiscoveryLoop msg index (pre ++ d :: post) cwd =
        ((provideAutoDiscoveryLoop msg index pre cwd).1, some (discoverNotFound msg d)) := by
  intro pre
  induction pre with
  | nil => intro cwd _; simp [provideAutoDiscoveryLoop, hd]
  | cons x rest ih =>
    intro cwd hall
    have hx : (lookupCertificate index x).isSome = true := hall x (List.mem_cons_self _ _)
    have hrest : ∀ y ∈ rest, (lookupCertificate index y).isSome = true :=
      fun y hy => hall y (List.mem_cons_of_mem _ hy)
    obtain ⟨secret, hsec⟩ := Option.isSome_iff_exists.1 hx
    cases hg : cwd.get (GetResourceName secret.Namespace secret.Name) with
    | none => simp only [List.cons_append, provideAutoDiscoveryLoop, hsec, hg]; exact ih _ hrest
    | some o => simp only [List.cons_append, provideAutoDiscoveryLoop, hsec, hg]; exact ih _ hrest

/-- The grouping of a successful auto-discovery: its keys are pairwise
distinct, and the entry of a key is the list of the served domains whose
credential has that key, in served order, when there is one. -/
theorem provideAutoDiscovery_grouping (msg : String) (tf : TlsFactory) (domains : List String)
    (m : GoMap (List String)) (hm : provideAutoDiscovery msg tf domains = (some m, none)) :
    m.keys.Nodup ∧
      ∀ k, m.get k = mergeGroup none
        (domains.filter (fun d => decide (credentialKey tf.certificatesIndex d = some k))) := by
  have hloop : provideAutoDiscoveryLoop msg tf.certificatesIndex domains [] = (m, none) := by
    simp only [provideAutoDiscovery, Prod.mk.injEq, Option.some.injEq] at hm
    exact Prod.ext hm.1 hm.2
  have hall := provideAutoDiscoveryLoop_resolved msg _ _ _ _ hloop
  obtain ⟨m2, hm2, hget, hnd⟩ := provideAutoDiscoveryLoop_ok msg tf.certificatesIndex domains [] hall
  have : m2 = m := by rw [hm2] at hloop; exact (Prod.mk.inj hloop).1
  subst this
  exact ⟨hnd (by simp [GoMap.keys]), fun k => by simpa [GoMap.get] using hget k⟩

theorem provideAutoDiscovery_succeeds (msg : String) (tf : TlsFactory) (domains : List String)
    (h : ∀ d ∈ domains, (lookupCertificate tf.certificatesIndex d).isSome = true) :
    ∃ m, provideAutoDiscovery msg tf domains = (some m, none) := by
  obtain ⟨m, hm, _, _⟩ := provideAutoDiscoveryLoop_ok msg tf.certificatesIndex domains [] h
  exact ⟨m, by simp [provideAutoDiscovery, hm]⟩

/-- In a successful grouping the entries that hold a served domain are exactly
the one entry keyed by the resource name of its credential. -/
theorem provideAutoDiscovery_entry_of_domain (msg : String) (tf : TlsFactory)
    (domains : List String) (m : GoMap (List String))
    (hm : provideAutoDiscovery msg tf domains = (some m, none)) (d : String) (hd : d ∈ domains)
    (k : String) (hk : credentialKey tf.certificatesIndex d = some k) :
    (∃ ds, (k, ds) ∈ m ∧ d ∈ ds) ∧ ∀ e, e ∈ m → d ∈ e.2 →
      e = (k, domains.filter (fun x => decide (credentialKey tf.certificatesIndex x = some k))) := by
  obtain ⟨hnd, hget⟩ := provideAutoDiscovery_grouping msg tf domains m hm
  have hmem : d ∈ domains.filter (fun x => decide (credentialKey tf.certificatesIndex x = some k)) := by
    simp [List.mem_filter, hd, hk]
  constructor
  · refine ⟨_, GoMap.mem_of_get_eq_some m k _ ?_, hmem⟩
    rw [hget k]
    exact mergeGroup_none_of_ne_nil _ (List.ne_nil_of_mem hmem)
  · intro e he hde
    obtain ⟨k2, ds⟩ := e
    have h1 := GoMap.get_eq_some_of_mem m hnd k2 ds he
    rw [hget k2] at h1
    obtain ⟨hds, _⟩ := mergeGroup_none_eq_some _ _ h1
    have hd2 : d ∈ domains.filter
        (fun x => decide (credentialKey tf.certificatesIndex x = some k2)) := by
      rw [← hds]; exact hde
    have hk2 : credentialKey tf.certificatesIndex d = some k2 := by
      simpa [List.mem_filter] using (List.mem_filter.1 hd2).2
    have : k2 = k := by rw [hk] at hk2; exact (Option.some.inj hk2).symm
    subst this
    rw [hds]

/-- C1: under AutoDiscovery, when every served domain has an index entry for
itself or for its wildcard form, `provideAutoDiscovery` (and `Provide`, which
dispatches to it) succeeds, the keys of the returned grouping are pairwise
distinct, and every served domain is in the domain list of exactly one of its
entries. -/
theorem provideAutoDiscovery_every_domain_in_exactly_one_group (msg : String) (tf : TlsFactory)
    (domains : List String)
    (h : ∀ d ∈ domains, (tf.certificatesIndex.get d).isSome = true ∨
      (tf.certificatesIndex.get (GetWildcardDomain d)).isSome = true) :
    ∃ m, provideAutoDiscovery msg tf domains = (some m, none) ∧
      (GetTLSType tf.TlsConfig = .ok .AutoDiscoveryType →
        Provide msg tf domains = (some m, none)) ∧
      m.keys.Nodup ∧
      ∀ d ∈ domains, ∃! e, e ∈ m ∧ d ∈ e.2 := by
  have hall : ∀ d ∈ domains, (lookupCertificate tf.certificatesIndex d).isSome = true :=
    fun d hd => (lookupCertificate_isSome _ d).2 (h d hd)
  obtain ⟨m, hm⟩ := provideAutoDiscovery_succeeds msg tf domains hall
  refine ⟨m, hm, ?_, (provideAutoDiscovery_grouping msg tf domains m hm).1, ?_⟩
  · intro ht
    simp [Provide, ht, hm]
  · intro d hd
    obtain ⟨secret, hsec⟩ := Option.isSome_iff_exists.1 (hall d hd)
    have hk := credentialKey_of_lookup _ d secret hsec
    obtain ⟨⟨ds, hin, hdin⟩, huniq⟩ :=
      provideAutoDiscovery_entry_of_domain msg tf domains m hm d hd _ hk
    refine ⟨(_, ds), ⟨hin, hdin⟩, ?_⟩
    rintro e ⟨he, hde⟩
    rw [huniq e he hde, huniq _ hin hdin]

/-- The scenario of C1: both served domains of the scenario have an entry, and
so each lies in exactly one group. -/
theorem provideAutoDiscovery_every_domain_in_exactly_one_group_witness :
    ∃ m, provideAutoDiscovery "not found" scenarioFactory scenarioDomains = (some m, none) ∧
      (GetTLSType scenarioFactory.TlsConfig = .ok .AutoDiscoveryType →
        Provide "not found" scenarioFactory scenarioDomains = (some m, none)) ∧
      m.keys.Nodup ∧
      ∀ d ∈ scenarioDomains, ∃! e, e ∈ m ∧ d ∈ e.2 :=
  provideAutoDiscovery_every_domain_in_exactly_one_group "not found" scenarioFactory
    scenarioDomains (by decide)

/-- C3: in a successful auto-discovery grouping, a served domain with an exact
index entry is grouped under the credential of that entry, whether or not a
wildcard entry exists, and a domain without exact entry is grouped under the
credential of its wildcard entry; no other group holds the domain. -/
theorem provideAutoDiscovery_exact_entry_before_wildcard (msg : String) (tf : TlsFactory)
    (domains : List String) (m : GoMap (List String))
    (hm : provideAutoDiscovery msg tf domains = (some m, none)) (d : String) (hd : d ∈ domains) :
    (∀ s, tf.certificatesIndex.get d = some s →
      (∃ ds, (GetResourceName s.Namespace s.Name, ds) ∈ m ∧ d ∈ ds) ∧
        ∀ e, e ∈ m → d ∈ e.2 → e.1 = GetResourceName s.Namespace s.Name) ∧
    (∀ s, tf.certificatesIndex.get d = none →
      tf.certificatesIndex.get (GetWildcardDomain d) = some s →
      (∃ ds, (GetResourceName s.Namespace s.Name, ds) ∈ m ∧ d ∈ ds) ∧
        ∀ e, e ∈ m → d ∈ e.2 → e.1 = GetResourceName s.Namespace s.Name) := by
  have key : ∀ s, lookupCertificate tf.certificatesIndex d = some s →
      (∃ ds, (GetResourceName s.Namespace s.Name, ds) ∈ m ∧ d ∈ ds) ∧
        ∀ e, e ∈ m → d ∈ e.2 → e.1 = GetResourceName s.Namespace s.Name := by
    intro s hs
    obtain ⟨hex, huniq⟩ := provideAutoDiscovery_entry_of_domain msg tf domains m hm d hd _
      (credentialKey_of_lookup _ d s hs)
    exact ⟨hex, fun e he hde => by rw [huniq e he hde]⟩
  constructor
  · intro s hs
    exact key s (by simp [lookupCertificate, hs])
  · intro s hnone hs
    exact key s (by simp [lookupCertificate, hnone, hs])

/-- The scenario of C3: served domains `a.example.com` and `b.example.com`, an
exact entry for the first and a wildcard entry `*.example.com`, give exactly two
groups, `CredA` with `a.example.com` and `CredB` with `b.example.com`. -/
theorem provideAutoDiscovery_exact_entry_before_wildcard_witness :
    provideAutoDiscovery "not found" scenarioFactory scenarioDomains =
        (some [("certs/cred-a", ["a.example.com"]), ("certs/cred-b", ["b.example.com"])], none) ∧
      ((∀ s, scenarioFactory.certificatesIndex.get "b.example.com" = some s →
        (∃ ds, (GetResourceName s.Namespace s.Name, ds) ∈
            [("certs/cred-a", ["a.example.com"]), ("certs/cred-b", ["b.example.com"])] ∧
          "b.example.com" ∈ ds) ∧
          ∀ e, e ∈ [("certs/cred-a", ["a.example.com"]), ("certs/cred-b", ["b.example.com"])] →
            "b.example.com" ∈ e.2 → e.1 = GetResourceName s.Namespace s.Name) ∧
      (∀ s, scenarioFactory.certificatesIndex.get "b.example.com" = none →
        scenarioFactory.certificatesIndex.get (GetWildcardDomain "b.example.com") = some s →
        (∃ ds, (GetResourceName s.Namespace s.Name, ds) ∈
            [("certs/cred-a", ["a.example.com"]), ("certs/cred-b", ["b.example.com"])] ∧
          "b.example.com" ∈ ds) ∧
          ∀ e, e ∈ [("certs/cred-a", ["a.example.com"]), ("certs/cred-b", ["b.example.com"])] →
            "b.example.com" ∈ e.2 → e.1 = GetResourceName s.Namespace s.Name)) :=
  ⟨by decide,
    provideAutoDiscovery_exact_entry_before_wildcard "not found" scenarioFactory scenarioDomains
      _ (by decide) "b.example.com" (by decide)⟩

/-- C5: for an explicit secret reference `provideSecretRef` returns, without
error, the grouping with the single entry keyed by the resource name of the
referenced credential (the namespace of the reference when given, otherwise
the namespace of the intent) whose domain list is the served domain list; the
certificate index has no part in the result, and `Provide` returns the same. -/
theorem provideSecretRef_single_group (tf : TlsFactory) (ref : ResourceRef)
    (h : tf.TlsConfig.SecretRef = some ref) (domains : List String) :
    provideSecretRef tf domains =
        (some [(GetResourceName (ref.Namespace.getD tf.vsNamespace) ref.Name, domains)], none) ∧
      (∀ index2 : GoMap Secret,
        provideSecretRef { tf with certificatesIndex := index2 } domains =
          provideSecretRef tf domains) ∧
      (∀ msg, GetTLSType tf.TlsConfig = .ok .SecretRefType →
        (Provide msg tf domains =
          (some [(GetResourceName (ref.Namespace.getD tf.vsNamespace) ref.Name, domains)], none) ∧
        ∀ index2 : GoMap Secret,
          Provide msg { tf with certificatesIndex := index2 } domains = Provide msg tf domains)) := by
  have h1 : ∀ index2 : GoMap Secret,
      provideSecretRef { tf with certificatesIndex := index2 } domains =
        (some [(GetResourceName (ref.Namespace.getD tf.vsNamespace) ref.Name, domains)], none) := by
    intro index2
    cases hn : ref.Namespace <;> simp [provideSecretRef, h, hn]
  have h0 : provideSecretRef tf domains =
      (some [(GetResourceName (ref.Namespace.getD tf.vsNamespace) ref.Name, domains)], none) :=
    h1 tf.certificatesIndex
  refine ⟨h0, fun index2 => by rw [h1 index2, h0], ?_⟩
  intro msg ht
  have hp : ∀ index2 : GoMap Secret,
      Provide msg { tf with certificatesIndex := index2 } domains =
        (some [(GetResourceName (ref.Namespace.getD tf.vsNamespace) ref.Name, domains)], none) := by
    intro index2
    simp only [Provide, ht]
    exact h1 index2
  exact ⟨hp tf.certificatesIndex, fun index2 => by rw [hp index2, hp tf.certificatesIndex]⟩

/-- The scenario of C5: a reference to `cred-a` without namespace, in an intent
of the namespace `edge`, groups all served domains under `edge/cred-a`. -/
theorem provideSecretRef_single_group_witness :
    provideSecretRef secretRefFactory scenarioDomains =
        (some [("edge/cred-a", ["a.example.com", "b.example.com"])], none) ∧
      GetTLSType secretRefFactory.TlsConfig = .ok .SecretRefType ∧
      Provide "not found" secretRefFactory scenarioDomains =
        (some [("edge/cred-a", ["a.example.com", "b.example.com"])], none) :=
  ⟨(provideSecretRef_single_group secretRefFactory { Name := "cred-a", Namespace := none } rfl
      scenarioDomains).1,
    rfl,
    ((provideSecretRef_single_group secretRefFactory { Name := "cred-a", Namespace := none } rfl
      scenarioDomains).2.2 "not found" rfl).1⟩

/-! ### Grouping by credential identity -/

theorem append_slash_inj : ∀ (a c b d : List Char), '/' ∉ a → '/' ∉ c →
    a ++ '/' :: b = c ++ '/' :: d → a = c ∧ b = d := by
  intro a
  induction a with
  | nil =>
    intro c b d _ hc h
    cases c with
    | nil => simpa using h
    | cons x c2 =>
      simp only [List.nil_append, List.cons_append, List.cons.injEq] at h
      exact absurd (by rw [← h.1]; exact List.mem_cons_self _ _) hc
  | cons y a2 ih =>
    intro c b d ha hc h
    cases c with
    | nil =>
      simp only [List.nil_append, List.cons_append, List.cons.injEq] at h
      exact absurd (by rw [h.1]; exact List.mem_cons_self _ _) ha
    | cons x c2 =>
      simp only [List.cons_append, List.cons.injEq] at h
      obtain ⟨h1, h2⟩ := ih c2 b d (fun hm => ha (List.mem_cons_of_mem _ hm))
        (fun hm => hc (List.mem_cons_of_mem _ hm)) h.2
      exact ⟨by rw [h.1, h1], h2⟩

/-- The resource name determines namespace and name when the namespaces have
no slash. -/
theorem GetResourceName_inj (ns1 n1 ns2 n2 : String) (h1 : '/' ∉ ns1.data)
    (h2 : '/' ∉ ns2.data) (h : GetResourceName ns1 n1 = GetResourceName ns2 n2) :
    ns1 = ns2 ∧ n1 = n2 := by
  have hd := congrArg String.data h
  simp only [GetResourceName, String.data_append] at hd
  have hd2 : ns1.data ++ '/' :: n1.data = ns2.data ++ '/' :: n2.data := by
    simpa using hd
  obtain ⟨ha, hb⟩ := append_slash_inj _ _ _ _ h1 h2 hd2
  exact ⟨String.ext ha, String.ext hb⟩

theorem mem_keys_of_grouping (msg : String) (tf : TlsFactory) (domains : List String)
    (m : GoMap (List String)) (hm : provideAutoDiscovery msg tf domains = (some m, none))
    (k : String) :
    k ∈ m.keys ↔ ∃ s, s ∈ domains.filterMap (lookupCertificate tf.certificatesIndex) ∧
      GetResourceName s.Namespace s.Name = k := by
  obtain ⟨_, hget⟩ := provideAutoDiscovery_grouping msg tf domains m hm
  rw [GoMap.mem_keys_iff_get, hget k]
  constructor
  · intro h
    obtain ⟨x, hx⟩ := Option.isSome_iff_exists.1 h
    obtain ⟨_, hne⟩ := mergeGroup_none_eq_some _ _ hx
    obtain ⟨d, hd⟩ := List.exists_mem_of_ne_nil _ hne
    obtain ⟨hd1, hd2⟩ := List.mem_filter.1 hd
    have hk : credentialKey tf.certificatesIndex d = some k := by simpa using hd2
    simp only [credentialKey, Option.map_eq_some'] at hk
    obtain ⟨s, hs, hsk⟩ := hk
    exact ⟨s, List.mem_filterMap.2 ⟨d, hd1, hs⟩, hsk⟩
  · rintro ⟨s, hs, hsk⟩
    obtain ⟨d, hd1, hd2⟩ := List.mem_filterMap.1 hs
    have hmem : d ∈ domains.filter
        (fun x => decide (credentialKey tf.certificatesIndex x = some k)) := by
      simp [List.mem_filter, hd1, credentialKey, hd2, hsk]
    rw [mergeGroup_none_of_ne_nil _ (List.ne_nil_of_mem hmem)]
    rfl

/-- C4: on a successful auto-discovery over credential objects of Kubernetes,
whose namespaces have no slash, two served domains are in the same group if and
only if their credentials have the same namespace and the same name, and the
number of groups is the number of distinct credential identities resolved: the
grouping key neither merges two identities nor splits one. -/
theorem provideAutoDiscovery_groups_by_identity (msg : String) (tf : TlsFactory)
    (domains : List String) (m : GoMap (List String))
    (hm : provideAutoDiscovery msg tf domains = (some m, none))
    (hslash : ∀ d ∈ domains, ∀ s, lookupCertificate tf.certificatesIndex d = some s →
      '/' ∉ s.Namespace.data) :
    (∀ d1 ∈ domains, ∀ d2 ∈ domains, ∀ s1 s2,
      lookupCertificate tf.certificatesIndex d1 = some s1 →
      lookupCertificate tf.certificatesIndex d2 = some s2 →
      ((∃ e, e ∈ m ∧ d1 ∈ e.2 ∧ d2 ∈ e.2) ↔
        (s1.Namespace = s2.Namespace ∧ s1.Name = s2.Name))) ∧
    m.length = ((domains.filterMap (lookupCertificate tf.certificatesIndex)).map
      (fun s => (s.Namespace, s.Name))).dedup.length := by
  constructor
  · intro d1 hd1 d2 hd2 s1 s2 hs1 hs2
    obtain ⟨hex1, hun1⟩ := provideAutoDiscovery_entry_of_domain msg tf domains m hm d1 hd1 _
      (credentialKey_of_lookup _ d1 s1 hs1)
    obtain ⟨hex2, hun2⟩ := provideAutoDiscovery_entry_of_domain msg tf domains m hm d2 hd2 _
      (credentialKey_of_lookup _ d2 s2 hs2)
    constructor
    · rintro ⟨e, he, h1, h2⟩
      have e1 := congrArg Prod.fst (hun1 e he h1)
      have e2 := congrArg Prod.fst (hun2 e he h2)
      simp only at e1 e2
      exact GetResourceName_inj _ _ _ _ (hslash d1 hd1 s1 hs1) (hslash d2 hd2 s2 hs2)
        (e1.symm.trans e2)
    · rintro ⟨hns, hn⟩
      obtain ⟨ds, hin, hdin⟩ := hex1
      refine ⟨_, hin, hdin, ?_⟩
      obtain ⟨ds2, hin2, hdin2⟩ := hex2
      have h3 := hun2 _ hin2 hdin2
      have h4 := hun1 _ hin hdin
      rw [hns, hn] at h4
      have : ds = ds2 := by
        have a := congrArg Prod.snd h4
        have b := congrArg Prod.snd h3
        simp only at a b
        rw [a, b]
      rw [this]; exact hdin2
  · obtain ⟨hnd, _⟩ := provideAutoDiscovery_grouping msg tf domains m hm
    have hinj : Set.InjOn (fun p : String × String => GetResourceName p.1 p.2)
        (((domains.filterMap (lookupCertificate tf.certificatesIndex)).map
          (fun s => (s.Namespace, s.Name))).toFinset : Set (String × String)) := by
      intro p hp q hq hpq
      simp only [List.coe_toFinset, Set.mem_setOf_eq, List.mem_map] at hp hq
      obtain ⟨s, hs, rfl⟩ := hp
      obtain ⟨t, ht, rfl⟩ := hq
      obtain ⟨d, hd, hds⟩ := List.mem_filterMap.1 hs
      obtain ⟨d2, hd2, hdt⟩ := List.mem_filterMap.1 ht
      obtain ⟨a, b⟩ := GetResourceName_inj _ _ _ _ (hslash d hd s hds) (hslash d2 hd2 t hdt) hpq
      exact Prod.ext a b
    have hkeys : m.keys.toFinset =
        (((domains.filterMap (lookupCertificate tf.certificatesIndex)).map
          (fun s => (s.Namespace, s.Name))).toFinset).image
            (fun p : String × String => GetResourceName p.1 p.2) := by
      ext k
      simp only [List.mem_toFinset, Finset.mem_image, List.mem_map]
      rw [mem_keys_of_grouping msg tf domains m hm k]
      constructor
      · rintro ⟨s, hs, hk⟩
        exact ⟨(s.Namespace, s.Name), ⟨s, hs, rfl⟩, hk⟩
      · rintro ⟨p, ⟨s, hs, rfl⟩, hk⟩
        exact ⟨s, hs, hk⟩
    have hlen : m.length = m.keys.toFinset.card := by
      rw [List.toFinset_card_of_nodup hnd]; simp [GoMap.keys]
    rw [hlen, hkeys, Finset.card_image_of_injOn hinj, List.card_toFinset]

/-- The scenario of C4: the two domains of the scenario resolve to credentials
of different names, and are in different groups; there are two groups. -/
theorem provideAutoDiscovery_groups_by_identity_witness :
    (∀ d1 ∈ scenarioDomains, ∀ d2 ∈ scenarioDomains, ∀ s1 s2,
      lookupCertificate scenarioFactory.certificatesIndex d1 = some s1 →
      lookupCertificate scenarioFactory.certificatesIndex d2 = some s2 →
      ((∃ e, e ∈ [("certs/cred-a", ["a.example.com"]), ("certs/cred-b", ["b.example.com"])] ∧
          d1 ∈ e.2 ∧ d2 ∈ e.2) ↔
        (s1.Namespace = s2.Namespace ∧ s1.Name = s2.Name))) ∧
    [("certs/cred-a", ["a.example.com"]), ("certs/cred-b", ["b.example.com"])].length =
      ((scenarioDomains.filterMap (lookupCertificate scenarioFactory.certificatesIndex)).map
        (fun s => (s.Namespace, s.Name))).dedup.length :=
  provideAutoDiscovery_groups_by_identity "not found" scenarioFactory scenarioDomains
    [("certs/cred-a", ["a.example.com"]), ("certs/cred-b", ["b.example.com"])] (by decide)
    (by decide)

/-! ### Construction -/

theorem bind_eq_ok {α β : Type} (x : Except Error α) (f : α → Except Error β) (y : β) :
    (x >>= f) = .ok y ↔ ∃ a, x = .ok a ∧ f a = .ok y := by
  cases x with
  | error e => simp [bind, Except.bind]
  | ok a => simp [bind, Except.bind]

theorem wrapError_eq_ok {α : Type} (r : Except Error α) (msg : String) (a : α) :
    wrapError r msg = .ok a ↔ r = .ok a := by
  cases r <;> simp [wrapError]

theorem fillUsedSecrets_fields (env : Env) (xrb xrb2 : XdsResourceBuilder)
    (h : fillUsedSecrets env xrb = .ok xrb2) :
    ∃ secrets, xrb2 = { xrb with usedSecrets := secrets } := by
  unfold fillUsedSecrets at h
  split at h
  · cases h
  · split at h
    · cases h
    · cases h; exact ⟨_, rfl⟩

theorem fillUsedClusters_fields (env : Env) (xrb xrb2 : XdsResourceBuilder)
    (h : fillUsedClusters env xrb = .ok xrb2) :
    ∃ clusters, xrb2 = { xrb with usedClusters := clusters } := by
  unfold fillUsedClusters at h
  split at h
  · cases h
  · cases h; exact ⟨_, rfl⟩

/-- A builder that `New` returns holds the virtual host, the route
configuration and the grouping that the steps of `New` built. -/
theorem New_ok_inv (env : Env) (vs : VirtualService) (index : GoMap Secret)
    (xrb : XdsResourceBuilder) (h : New env vs index = .ok xrb) :
    ∃ vh routeConfig cwd,
      buildVirtualHost env vs = .ok vh ∧
      buildRouteConfiguration env (GetResourceName vs.Namespace vs.Name) vh = .ok routeConfig ∧
      provideCertificates env vs index vh = .ok cwd ∧
      xrb.name = GetResourceName vs.Namespace vs.Name ∧
      xrb.virtualHost = vh ∧ xrb.routeConfig = routeConfig ∧
      xrb.certificatesWithDomains = cwd := by
  unfold New at h
  simp only [bind_eq_ok, wrapError_eq_ok] at h
  obtain ⟨accessLog, _, vh, hvh, httpFilters, _, routeConfig, hrc, upgradeConfigs, _, cwd, hcwd,
    withSecrets, hsec, hclu⟩ := h
  obtain ⟨secrets, rfl⟩ := fillUsedSecrets_fields env _ _ hsec
  obtain ⟨clusters, rfl⟩ := fillUsedClusters_fields env _ _ hclu
  exact ⟨vh, routeConfig, cwd, hvh, hrc, hcwd, rfl, rfl, rfl, rfl⟩

/-- When the TLS step of `New` fails, `New` returns an error and no builder. -/
theorem New_error_of_provideCertificates (env : Env) (vs : VirtualService)
    (index : GoMap Secret) (vh : VirtualHost) (e : Error)
    (hvh : buildVirtualHost env vs = .ok vh)
    (hp : provideCertificates env vs index vh = .error e) :
    ∃ err, New env vs index = .error err := by
  cases hn : New env vs index with
  | error err => exact ⟨err, rfl⟩
  | ok xrb =>
    obtain ⟨vh2, _, cwd, hvh2, _, hcwd, _⟩ := New_ok_inv env vs index xrb hn
    rw [hvh] at hvh2
    cases hvh2
    rw [hp] at hcwd
    cases hcwd

/-- C2, amended: under AutoDiscovery, when the served domain `d` has neither an
exact index entry nor an entry for its wildcard form and the domains before it
resolve, `provideAutoDiscovery` (and `Provide`) returns the discovery-not-found
error that names `d`, and next to it the grouping built from the domains
before `d`; `New` wraps that error and returns no builder. -/
theorem provideAutoDiscovery_reports_first_unresolved_domain (env : Env) (vs : VirtualService)
    (index : GoMap Secret) (tc : TlsConfig) (vh : VirtualHost) (pre post : List String)
    (d : String)
    (htls : vs.Spec.TlsConfig = some tc) (htype : GetTLSType tc = .ok .AutoDiscoveryType)
    (hvh : buildVirtualHost env vs = .ok vh) (hdom : vh.Domains = pre ++ d :: post)
    (hpre : ∀ x ∈ pre, (lookupCertificate index x).isSome = true)
    (h1 : index.get d = none) (h2 : index.get (GetWildcardDomain d) = none) :
    ∃ before,
      provideAutoDiscovery env.DiscoverNotFoundMessage (NewTlsFactory tc vs.Namespace index) pre =
        (some before, none) ∧
      provideAutoDiscovery env.DiscoverNotFoundMessage (NewTlsFactory tc vs.Namespace index)
          vh.Domains =
        (some before, some (discoverNotFound env.DiscoverNotFoundMessage d)) ∧
      Provide env.DiscoverNotFoundMessage (NewTlsFactory tc vs.Namespace index) vh.Domains =
        (some before, some (discoverNotFound env.DiscoverNotFoundMessage d)) ∧
      provideCertificates env vs index vh =
        .error (.wrap (discoverNotFound env.DiscoverNotFoundMessage d)
          "cannot provide TLS certificates") ∧
      ∃ err, New env vs index = .error err := by
  have hd : lookupCertificate index d = none := by simp [lookupCertificate, h1, h2]
  obtain ⟨before, hb⟩ := provideAutoDiscovery_succeeds env.DiscoverNotFoundMessage
    (NewTlsFactory tc vs.Namespace index) pre hpre
  have hfail : provideAutoDiscovery env.DiscoverNotFoundMessage
      (NewTlsFactory tc vs.Namespace index) vh.Domains =
        (some before, some (discoverNotFound env.DiscoverNotFoundMessage d)) := by
    have hloop : (provideAutoDiscoveryLoop env.DiscoverNotFoundMessage index pre []).1 = before := by
      have := congrArg Prod.fst hb
      simpa [provideAutoDiscovery, NewTlsFactory] using this
    simp only [provideAutoDiscovery, NewTlsFactory, hdom]
    rw [provideAutoDiscoveryLoop_fail env.DiscoverNotFoundMessage index d post hd pre [] hpre,
      hloop]
  have hprov : Provide env.DiscoverNotFoundMessage (NewTlsFactory tc vs.Namespace index)
      vh.Domains = (some before, some (discoverNotFound env.DiscoverNotFoundMessage d)) := by
    have : GetTLSType (NewTlsFactory tc vs.Namespace index).TlsConfig =
        .ok .AutoDiscoveryType := htype
    simp only [Provide, this]
    exact hfail
  have hcert : provideCertificates env vs index vh =
      .error (.wrap (discoverNotFound env.DiscoverNotFoundMessage d)
        "cannot provide TLS certificates") := by
    simp only [provideCertificates, htls, hprov]
  exact ⟨before, hb, hfail, hprov, hcert,
    New_error_of_provideCertificates env vs index vh _ hvh hcert⟩

/-- The scenario of C2: the served domain `c.other.org` has no entry in the
scenario index; the error names it and `New` returns no builder. -/
theorem provideAutoDiscovery_reports_first_unresolved_domain_witness :
    ∃ before,
      provideAutoDiscovery "not found" (NewTlsFactory autoDiscoveryConfig "edge" scenarioIndex)
          ["a.example.com"] = (some before, none) ∧
      provideAutoDiscovery "not found" (NewTlsFactory autoDiscoveryConfig "edge" scenarioIndex)
          unservedDomains = (some before, some (discoverNotFound "not found" "c.other.org")) ∧
      Provide "not found" (NewTlsFactory autoDiscoveryConfig "edge" scenarioIndex)
          unservedDomains = (some before, some (discoverNotFound "not found" "c.other.org")) ∧
      provideCertificates (scenarioEnv unservedDomains) (scenarioService (some autoDiscoveryConfig))
          scenarioIndex
          { Name := "web", Domains := unservedDomains, Routes := [], RequestHeadersToAdd := [],
            Rest := .null } =
        .error (.wrap (discoverNotFound "not found" "c.other.org")
          "cannot provide TLS certificates") ∧
      ∃ err, New (scenarioEnv unservedDomains) (scenarioService (some autoDiscoveryConfig))
        scenarioIndex = .error err :=
  provideAutoDiscovery_reports_first_unresolved_domain (scenarioEnv unservedDomains)
    (scenarioService (some autoDiscoveryConfig)) scenarioIndex autoDiscoveryConfig
    { Name := "web", Domains := unservedDomains, Routes := [], RequestHeadersToAdd := [],
      Rest := .null }
    ["a.example.com"] ["b.example.com"] "c.other.org" rfl rfl rfl rfl (by decide) (by decide)
    (by decide)

/-- C2 as stated fails: for the served domains `a.example.com`, `c.other.org`,
`b.example.com`, `provideAutoDiscovery` returns, next to the error that names
`c.other.org`, the grouping of `a.example.com` built before it. -/
theorem provideAutoDiscovery_returns_partial_grouping :
    provideAutoDiscovery "not found" scenarioFactory unservedDomains =
      (some [("certs/cred-a", ["a.example.com"])],
        some (.uks "domain - c.other.org: not found")) := by
  decide

/-! ### The secret translator -/

theorem makeEnvoyOpaqueSecretLoop_ok (validate : EnvoySecret → Option Error) (s : Secret) :
    ∀ (blobs : GoMap Bytes) (secrets : List EnvoySecret),
      (∀ e ∈ blobs, validate (opaqueRecord s e.1 e.2) = none) →
      makeEnvoyOpaqueSecretLoop validate s blobs secrets =
        .ok (secrets ++ blobs.map (fun e => opaqueRecord s e.1 e.2)) := by
  intro blobs
  induction blobs with
  | nil => intro secrets _; simp [makeEnvoyOpaqueSecretLoop]
  | cons e rest ih =>
    intro secrets hall
    obtain ⟨k, v⟩ := e
    have hk : validate (opaqueRecord s k v) = none := hall (k, v) (List.mem_cons_self _ _)
    simp only [makeEnvoyOpaqueSecretLoop, hk]
    rw [ih _ (fun e he => hall e (List.mem_cons_of_mem _ he))]
    simp

theorem opaqueRecord_name_inj (s : Secret) (k1 k2 : String) (v1 v2 : Bytes)
    (h : (opaqueRecord s k1 v1).Name = (opaqueRecord s k2 v2).Name) : k1 = k2 := by
  have hd := congrArg String.data h
  simp only [opaqueRecord, String.data_append, List.append_assoc] at hd
  exact String.ext (List.append_cancel_left (List.append_cancel_left
    (List.append_cancel_left (List.append_cancel_left hd))))

/-- C9: for a credential object whose records pass validation (its blob keys
are pairwise distinct, as the keys of a Go map are), the translation yields
exactly one record, named
`{namespace}/{name}`, for the keypair type; and for the opaque type exactly one
generic record for each blob, named `{namespace}/{name}/{key}` and carrying
the bytes of the blob, so as many records as blobs, with pairwise distinct
names. -/
theorem makeEnvoySecretFromKubernetesSecret_records (validate : EnvoySecret → Option Error)
    (s : Secret) (hkeys : s.Data.keys.Nodup)
    (htls : s.SecretType = SecretTypeTLS → validate (tlsRecord s) = none)
    (hblobs : s.SecretType = SecretTypeOpaque →
      ∀ e ∈ s.Data, validate (opaqueRecord s e.1 e.2) = none) :
    (s.SecretType = SecretTypeTLS →
      makeEnvoySecretFromKubernetesSecret validate s = .ok [tlsRecord s] ∧
        (tlsRecord s).Name = s.Namespace ++ "/" ++ s.Name) ∧
    (s.SecretType = SecretTypeOpaque →
      ∃ records, makeEnvoySecretFromKubernetesSecret validate s = .ok records ∧
        records.length = s.Data.length ∧
        records = s.Data.map (fun e =>
          { Name := s.Namespace ++ "/" ++ s.Name ++ "/" ++ e.1, Payload := .GenericSecret e.2 }) ∧
        (records.map (fun r => r.Name)).Nodup) := by
  constructor
  · intro ht
    refine ⟨?_, rfl⟩
    simp [makeEnvoySecretFromKubernetesSecret, ht, makeEnvoyTLSSecret, htls ht]
  · intro ht
    have hne : ¬ SecretTypeOpaque = SecretTypeTLS := by decide
    refine ⟨s.Data.map (fun e : String × Bytes => opaqueRecord s e.1 e.2), ?_, by simp, rfl, ?_⟩
    · simp only [makeEnvoySecretFromKubernetesSecret, ht, hne, if_false, if_true,
        makeEnvoyOpaqueSecret]
      rw [makeEnvoyOpaqueSecretLoop_ok validate s s.Data [] (hblobs ht)]
      simp
    · rw [List.map_map]
      have hinj : ∀ a ∈ s.Data, ∀ b ∈ s.Data,
          ((fun r : EnvoySecret => r.Name) ∘ fun e => opaqueRecord s e.1 e.2) a =
            ((fun r : EnvoySecret => r.Name) ∘ fun e => opaqueRecord s e.1 e.2) b →
          a.1 = b.1 := by
        intro a _ b _ hab
        exact opaqueRecord_name_inj s a.1 b.1 a.2 b.2 hab
      have hnd : (s.Data.map Prod.fst).Nodup := hkeys
      rw [List.nodup_map_iff_inj_on (List.Nodup.of_map _ hnd)]
      intro a ha b hb hab
      exact List.inj_on_of_nodup_map hnd ha hb (hinj a ha b hb hab)

/-- The scenario of C9: the opaque credential `certs/trust` with the blobs `ca`
and `crl` yields the two records `certs/trust/ca` and `certs/trust/crl`, and a
keypair credential yields one record. -/
theorem makeEnvoySecretFromKubernetesSecret_records_witness :
    makeEnvoySecretFromKubernetesSecret acceptAll trustBundle =
        .ok [{ Name := "certs/trust/ca", Payload := .GenericSecret [1, 2] },
             { Name := "certs/trust/crl", Payload := .GenericSecret [3] }] ∧
      makeEnvoySecretFromKubernetesSecret acceptAll keypairSecret =
        .ok [{ Name := "certs/cred-a", Payload := .TlsCertificate [1] [2] }] ∧
      ∃ records, makeEnvoySecretFromKubernetesSecret acceptAll trustBundle = .ok records ∧
        records.length = trustBundle.Data.length ∧
        records = trustBundle.Data.map (fun e =>
          { Name := trustBundle.Namespace ++ "/" ++ trustBundle.Name ++ "/" ++ e.1,
            Payload := .GenericSecret e.2 }) ∧
        (records.map (fun r => r.Name)).Nodup :=
  ⟨rfl, rfl,
    (makeEnvoySecretFromKubernetesSecret_records acceptAll trustBundle (by decide)
      (fun _ => rfl) (fun _ _ _ => rfl)).2 rfl⟩

/-! ### The generic tree search -/

theorem namesOfMarked_append (sprintv : Json → String) (key : String)
    (a b : List (List (String × Json))) :
    namesOfMarked sprintv key (a ++ b) =
      namesOfMarked sprintv key a ++ namesOfMarked sprintv key b := by
  simp [namesOfMarked]

theorem namesOfMarked_cons (sprintv : Json → String) (key : String)
    (m : List (String × Json)) (ms : List (List (String × Json))) :
    namesOfMarked sprintv key (m :: ms) =
      (if (GoMap.get m key).isSome = true then [sprintv ((GoMap.get m "name").getD .null)]
        else []) ++ namesOfMarked sprintv key ms := by
  by_cases h : (GoMap.get m key).isSome = true <;> simp [namesOfMarked, List.filter_cons, h]

mutual
theorem findSDSNames_perm (sprintv : Json → String) (key : String) :
    ∀ (t : Json), t.distinctKeys = true →
      (findSDSNames sprintv t key).Perm (namesOfMarked sprintv key t.mappings)
  | .obj fields, h => by
    simp only [Json.distinctKeys, Bool.and_eq_true, decide_eq_true_eq] at h
    have ih := findSDSNamesFields_perm sprintv key ((GoMap.get fields "name").getD .null)
      fields h.2 h.1
    simp only [findSDSNames, Json.mappings, namesOfMarked_cons]
    exact ih
  | .arr items, h => by
    simp only [Json.distinctKeys] at h
    simpa only [findSDSNames, Json.mappings] using findSDSNamesItems_perm sprintv key items h
  | .null, _ => by simp [findSDSNames, Json.mappings, namesOfMarked]
  | .bool _, _ => by simp [findSDSNames, Json.mappings, namesOfMarked]
  | .num _, _ => by simp [findSDSNames, Json.mappings, namesOfMarked]
  | .str _, _ => by simp [findSDSNames, Json.mappings, namesOfMarked]
theorem findSDSNamesFields_perm (sprintv : Json → String) (key : String) (nv : Json) :
    ∀ (fields : List (String × Json)), Json.distinctKeysFields fields = true →
      (GoMap.keys fields).Nodup →
      (findSDSNamesFields sprintv nv fields key).Perm
        ((if (GoMap.get fields key).isSome = true then [sprintv nv] else []) ++
          namesOfMarked sprintv key (Json.mappingsFields fields))
  | [], _, _ => by simp [findSDSNamesFields, Json.mappingsFields, namesOfMarked, GoMap.get]
  | (k, v) :: rest, h, hn => by
    simp only [Json.distinctKeysFields, Bool.and_eq_true] at h
    have hn2 : k ∉ GoMap.keys rest ∧ (GoMap.keys rest).Nodup := by
      simpa [GoMap.keys] using hn
    have ihv := findSDSNames_perm sprintv key v h.1
    have ihr := findSDSNamesFields_perm sprintv key nv rest h.2 hn2.2
    simp only [findSDSNamesFields, Json.mappingsFields, namesOfMarked_append]
    by_cases hk : k = key
    · subst hk
      have hrest : (GoMap.get rest k).isSome = false := by
        cases hg : (GoMap.get rest k).isSome with
        | false => rfl
        | true => exact absurd ((GoMap.mem_keys_iff_get rest k).2 hg) hn2.1
      simp only [hrest, Bool.false_eq_true, if_false, List.nil_append] at ihr
      simp only [GoMap.get, if_true, Option.isSome_some]
      exact (List.Perm.append (List.Perm.append (List.Perm.refl _) ihv) ihr).trans
        (by simp)
    · simp only [GoMap.get, hk, if_false, List.nil_append]
      refine (List.Perm.append ihv ihr).trans ?_
      rw [← List.append_assoc, ← List.append_assoc]
      exact List.Perm.append_right _ List.perm_append_comm
theorem findSDSNamesItems_perm (sprintv : Json → String) (key : String) :
    ∀ (items : List Json), Json.distinctKeysItems items = true →
      (findSDSNamesItems sprintv items key).Perm
        (namesOfMarked sprintv key (Json.mappingsItems items))
  | [], _ => by simp [findSDSNamesItems, Json.mappingsItems, namesOfMarked]
  | item :: rest, h => by
    simp only [Json.distinctKeysItems, Bool.and_eq_true] at h
    simp only [findSDSNamesItems, Json.mappingsItems, namesOfMarked_append]
    exact List.Perm.append (findSDSNames_perm sprintv key item h.1)
      (findSDSNamesItems_perm sprintv key rest h.2)
end

theorem findSDSNamesItems_eq_join (sprintv : Json → String) (key : String) :
    ∀ (items : List Json), findSDSNamesItems sprintv items key =
      (items.map (fun item => findSDSNames sprintv item key)).flatten
  | [] => by simp [findSDSNamesItems]
  | item :: rest => by
    simp [findSDSNamesItems, findSDSNamesItems_eq_join sprintv key rest]

theorem findSDSNamesFields_sublist (sprintv : Json → String) (key : String) (nv : Json) :
    ∀ (fields : List (String × Json)) (k : String) (v : Json), (k, v) ∈ fields →
      (findSDSNames sprintv v key).Sublist (findSDSNamesFields sprintv nv fields key)
  | [], _, _, h => by simp at h
  | (k2, v2) :: rest, k, v, h => by
    simp only [findSDSNamesFields]
    rcases List.mem_cons.1 h with heq | hin
    · cases heq
      exact ((List.sublist_append_right _ _).trans (List.sublist_append_left _ _))
    · exact (findSDSNamesFields_sublist sprintv key nv rest k v hin).trans
        (List.sublist_append_right _ _)

/-- C10: on a tree whose mappings have pairwise distinct keys, `findSDSNames`
returns, up to order, one result for each mapping node at any depth that
contains the marker key, namely the value under the `name` key of that mapping;
the results found beneath any value of a mapping, matched or not, are among the
results of the mapping; a sequence gives the results of its elements in order;
scalars, the empty mapping and the empty sequence give nothing. -/
theorem findSDSNames_one_result_per_marked_mapping (sprintv : Json → String) (tree : Json)
    (key : String) (h : tree.distinctKeys = true) :
    (findSDSNames sprintv tree key).Perm (markedNames sprintv tree key) ∧
      (findSDSNames sprintv tree key).length =
        ((Json.mappings tree).filter (fun m => (GoMap.get m key).isSome)).length ∧
      (∀ fields k v, (k, v) ∈ fields →
        (findSDSNames sprintv v key).Sublist (findSDSNames sprintv (.obj fields) key)) ∧
      (∀ items, findSDSNames sprintv (.arr items) key =
        (items.map (fun item => findSDSNames sprintv item key)).flatten) ∧
      findSDSNames sprintv .null key = [] ∧
      (∀ b, findSDSNames sprintv (.bool b) key = []) ∧
      (∀ n, findSDSNames sprintv (.num n) key = []) ∧
      (∀ t, findSDSNames sprintv (.str t) key = []) ∧
      findSDSNames sprintv (.obj []) key = [] ∧
      findSDSNames sprintv (.arr []) key = [] := by
  have hperm := findSDSNames_perm sprintv key tree h
  refine ⟨hperm, ?_, ?_, ?_, ?_, ?_, ?_, ?_, ?_, ?_⟩
  · rw [hperm.length_eq]; simp [namesOfMarked]
  · intro fields k v hin
    simp only [findSDSNames]
    exact findSDSNamesFields_sublist sprintv key _ fields k v hin
  · intro items
    simp only [findSDSNames]
    exact findSDSNamesItems_eq_join sprintv key items
  · simp [findSDSNames]
  · intro b; simp [findSDSNames]
  · intro n; simp [findSDSNames]
  · intro t; simp [findSDSNames]
  · simp [findSDSNames, findSDSNamesFields]
  · simp [findSDSNames, findSDSNamesItems]

/-- The scenario of C10: a mapping with the marker key, and a second one nested
in a sequence beneath that key, give the two names `certs/outer` and
`certs/inner`. -/
theorem findSDSNames_one_result_per_marked_mapping_witness :
    findSDSNames scenarioSprintv nestedSdsTree "sds_config" = ["certs/outer", "certs/inner"] ∧
      (findSDSNames scenarioSprintv nestedSdsTree "sds_config").Perm
        (markedNames scenarioSprintv nestedSdsTree "sds_config") ∧
      (findSDSNames scenarioSprintv nestedSdsTree "sds_config").length =
        ((Json.mappings nestedSdsTree).filter
          (fun m => (GoMap.get m "sds_config").isSome)).length :=
  ⟨by decide,
    (findSDSNames_one_result_per_marked_mapping scenarioSprintv nestedSdsTree "sds_config"
      (by decide)).1,
    (findSDSNames_one_result_per_marked_mapping scenarioSprintv nestedSdsTree "sds_config"
      (by decide)).2.1⟩

/-! ### Filter chains -/

theorem scenario_New :
    New (scenarioEnv scenarioDomains) (scenarioService (some autoDiscoveryConfig)) scenarioIndex =
      .ok scenarioBuilder := by
  rfl

theorem scenario_New_plain :
    New (scenarioEnv scenarioDomains) (scenarioService none) scenarioIndex = .ok plainBuilder := by
  rfl

theorem GetTLSType_ne_unknown (tc : TlsConfig) : GetTLSType tc ≠ .ok .unknown := by
  unfold GetTLSType
  cases tc.SecretRef <;> cases tc.AutoDiscovery <;> simp

theorem GetTLSType_secretRef (tc : TlsConfig) (h : GetTLSType tc = .ok .SecretRefType) :
    ∃ ref, tc.SecretRef = some ref := by
  cases hs : tc.SecretRef with
  | some ref => exact ⟨ref, rfl⟩
  | none =>
    cases ha : tc.AutoDiscovery with
    | none => simp [GetTLSType, hs, ha] at h
    | some a => simp [GetTLSType, hs, ha] at h

/-- With a TLS intent, the grouping `New` stores is a map, not nil. -/
theorem provideCertificates_some (env : Env) (vs : VirtualService) (index : GoMap Secret)
    (vh : VirtualHost) (tc : TlsConfig) (cwd : Option (GoMap (List String)))
    (htls : vs.Spec.TlsConfig = some tc)
    (h : provideCertificates env vs index vh = .ok cwd) : ∃ m, cwd = some m := by
  simp only [provideCertificates, htls, Provide, NewTlsFactory] at h
  cases ht : GetTLSType tc with
  | error e => rw [ht] at h; simp at h
  | ok t =>
    rw [ht] at h
    cases t with
    | unknown => exact absurd ht (GetTLSType_ne_unknown tc)
    | SecretRefType =>
      obtain ⟨ref, href⟩ := GetTLSType_secretRef tc ht
      simp only [provideSecretRef, href] at h
      cases h
      exact ⟨_, rfl⟩
    | AutoDiscoveryType =>
      simp only [provideAutoDiscovery] at h
      split at h
      · cases h
      · rename_i c heq
        cases h
        simp only [Prod.mk.injEq] at heq
        exact ⟨_, heq.1.symm⟩

theorem provideCertificates_none (env : Env) (vs : VirtualService) (index : GoMap Secret)
    (vh : VirtualHost) (htls : vs.Spec.TlsConfig = none) :
    provideCertificates env vs index vh = .ok none := by
  simp [provideCertificates, htls]

/-- When its chains validate, the loop of `BuildFilterChains` appends the chain
of each entry of the grouping, in order. -/
theorem buildFilterChainsLoop_ok (env : Env) :
    ∀ (m : GoMap (List String)) (b : filterChainBuilder) (xrb : XdsResourceBuilder)
      (chains : List FilterChain),
      (∀ e ∈ m, env.validateFilterChain (groupChain xrb e) = none) →
      (buildFilterChainsLoop env (replaceDots xrb.name) m b xrb chains).1 =
        .ok (chains ++ m.map (groupChain xrb)) := by
  intro m
  induction m with
  | nil => intro b xrb chains _; simp [buildFilterChainsLoop]
  | cons e rest ih =>
    intro b xrb chains hall
    obtain ⟨certName, domains⟩ := e
    have hv : env.validateFilterChain (groupChain xrb (certName, domains)) = none :=
      hall _ (List.mem_cons_self _ _)
    have hbuild : filterChainBuilder.Build env
        (((b.WithDownstreamTlsContext certName).WithFilterChainMatch domains
          ).WithHttpConnectionManager xrb.accessLog xrb.httpFilters xrb.name
            (replaceDots xrb.name) xrb.useRemoteAddress xrb.upgradeConfigs) xrb.name =
        .ok (groupChain xrb (certName, domains)) := by
      have : env.validateFilterChain
          { Name := xrb.name, DownstreamTlsContext := some certName,
            FilterChainMatch := some domains,
            HttpConnectionManager := some (sharedManager xrb) } = none := hv
      simp only [filterChainBuilder.Build, filterChainBuilder.WithHttpConnectionManager,
        filterChainBuilder.WithFilterChainMatch, filterChainBuilder.WithDownstreamTlsContext]
      simp only [sharedManager] at this
      rw [this]
      rfl
    simp only [buildFilterChainsLoop, hbuild]
    have hrest := ih
      (((b.WithDownstreamTlsContext certName).WithFilterChainMatch domains
          ).WithHttpConnectionManager xrb.accessLog xrb.httpFilters xrb.name
            (replaceDots xrb.name) xrb.useRemoteAddress xrb.upgradeConfigs)
      { xrb with virtualHost := { xrb.virtualHost with Domains := domains } }
      (chains ++ [groupChain xrb (certName, domains)])
      (fun e he => hall e (List.mem_cons_of_mem _ he))
    rw [show replaceDots
      ({ xrb with virtualHost := { xrb.virtualHost with Domains := domains } } :
        XdsResourceBuilder).name = replaceDots xrb.name from rfl] at hrest
    rw [hrest]
    simp only [List.append_assoc, List.singleton_append, List.map_cons]
    rfl

/-- The loop of `BuildFilterChains` changes nothing of the builder but the
domain list of its virtual host. -/
theorem buildFilterChainsLoop_builder (env : Env) (sp : String) :
    ∀ (m : GoMap (List String)) (b : filterChainBuilder) (xrb : XdsResourceBuilder)
      (chains : List FilterChain),
      ∃ domains, (buildFilterChainsLoop env sp m b xrb chains).2 =
        { xrb with virtualHost := { xrb.virtualHost with Domains := domains } } := by
  intro m
  induction m with
  | nil => intro b xrb chains; exact ⟨xrb.virtualHost.Domains, rfl⟩
  | cons e rest ih =>
    intro b xrb chains
    obtain ⟨certName, domains⟩ := e
    simp only [buildFilterChainsLoop]
    split
    · exact ⟨domains, rfl⟩
    · rename_i f _
      obtain ⟨d2, h2⟩ := ih
        (((b.WithDownstreamTlsContext certName).WithFilterChainMatch domains
          ).WithHttpConnectionManager xrb.accessLog xrb.httpFilters xrb.name sp
            xrb.useRemoteAddress xrb.upgradeConfigs)
        { xrb with virtualHost := { xrb.virtualHost with Domains := domains } }
        (chains ++ [f])
      exact ⟨d2, h2⟩

/-- A call of `BuildFilterChains` changes nothing of the builder but the domain
list of its virtual host. -/
theorem BuildFilterChains_builder (env : Env) (xrb : XdsResourceBuilder) :
    ∃ domains, (BuildFilterChains env xrb).2 =
      { xrb with virtualHost := { xrb.virtualHost with Domains := domains } } := by
  have key : ∀ c : Option (GoMap (List String)), ∃ domains,
      (match c with
        | some certificatesWithDomains =>
          buildFilterChainsLoop env (replaceDots xrb.name) certificatesWithDomains
            { downstreamTlsContext := none, filterChainMatch := none,
              httpConnectionManager := none } xrb []
        | none =>
          match ((filterChainBuilder.WithHttpConnectionManager
              { downstreamTlsContext := none, filterChainMatch := none,
                httpConnectionManager := none }
              xrb.accessLog xrb.httpFilters xrb.name (replaceDots xrb.name)
              xrb.useRemoteAddress xrb.upgradeConfigs).WithFilterChainMatch
                xrb.virtualHost.Domains).Build env xrb.name with
          | .error err => (.error (.wrap err "failed to generate Filter Chain"), xrb)
          | .ok f => (.ok ([] ++ [f]), xrb)).2 =
        { xrb with virtualHost := { xrb.virtualHost with Domains := domains } } := by
    intro c
    cases c with
    | some m => exact buildFilterChainsLoop_builder env _ m _ xrb []
    | none =>
      simp only
      split
      · exact ⟨xrb.virtualHost.Domains, rfl⟩
      · exact ⟨xrb.virtualHost.Domains, rfl⟩
  exact key xrb.certificatesWithDomains

theorem afterBuildFilterChains_routeConfig (env : Env) :
    ∀ (n : Nat) (xrb : XdsResourceBuilder),
      (afterBuildFilterChains env n xrb).routeConfig = xrb.routeConfig := by
  intro n
  induction n with
  | zero => intro xrb; rfl
  | succ n ih =>
    intro xrb
    obtain ⟨domains, h⟩ := BuildFilterChains_builder env xrb
    simp only [afterBuildFilterChains]
    rw [ih, h]

theorem BuildFilterChains_plain (env : Env) (xrb : XdsResourceBuilder)
    (hc : xrb.certificatesWithDomains = none)
    (hv : env.validateFilterChain (plainChain xrb) = none) :
    BuildFilterChains env xrb = (.ok [plainChain xrb], xrb) := by
  have hbuild : filterChainBuilder.Build env
      ((filterChainBuilder.WithHttpConnectionManager
          { downstreamTlsContext := none, filterChainMatch := none,
            httpConnectionManager := none }
          xrb.accessLog xrb.httpFilters xrb.name (replaceDots xrb.name) xrb.useRemoteAddress
          xrb.upgradeConfigs).WithFilterChainMatch xrb.virtualHost.Domains) xrb.name =
      .ok (plainChain xrb) := by
    simp only [filterChainBuilder.Build, filterChainBuilder.WithHttpConnectionManager,
      filterChainBuilder.WithFilterChainMatch]
    simp only [plainChain, sharedManager] at hv
    rw [hv]
    rfl
  simp only [BuildFilterChains, hc, hbuild]
  rfl

/-- C6: for a builder that `New` returned and whose chains all pass validation,
`BuildFilterChains` returns one chain for each entry of the domain grouping,
so as many chains as entries, when the intent has a TLS intent; and when the
intent has no TLS intent it returns exactly one chain, with no TLS context,
matched on the full domain list of the virtual host. -/
theorem BuildFilterChains_count (env : Env) (vs : VirtualService) (index : GoMap Secret)
    (xrb : XdsResourceBuilder) (hnew : New env vs index = .ok xrb)
    (hgroups : ∀ m, xrb.certificatesWithDomains = some m →
      ∀ e ∈ m, env.validateFilterChain (groupChain xrb e) = none)
    (hplain : xrb.certificatesWithDomains = none →
      env.validateFilterChain (plainChain xrb) = none) :
    (∀ tc, vs.Spec.TlsConfig = some tc →
      ∃ m chains, xrb.certificatesWithDomains = some m ∧
        (BuildFilterChains env xrb).1 = .ok chains ∧
        chains.length = m.length ∧
        chains.map (fun c => c.DownstreamTlsContext) = m.map (fun e => some e.1) ∧
        chains.map (fun c => c.FilterChainMatch) = m.map (fun e => some e.2)) ∧
    (vs.Spec.TlsConfig = none →
      xrb.certificatesWithDomains = none ∧
      ∃ chain, (BuildFilterChains env xrb).1 = .ok [chain] ∧
        chain.DownstreamTlsContext = none ∧
        chain.FilterChainMatch = some xrb.virtualHost.Domains) := by
  obtain ⟨vh, routeConfig, cwd, _, _, hcwd, _, _, _, hx⟩ := New_ok_inv env vs index xrb hnew
  constructor
  · intro tc htls
    obtain ⟨m, hm⟩ := provideCertificates_some env vs index vh tc cwd htls hcwd
    refine ⟨m, m.map (groupChain xrb), by rw [hx, hm], ?_, by simp, ?_, ?_⟩
    · have h := buildFilterChainsLoop_ok env m
        { downstreamTlsContext := none, filterChainMatch := none,
          httpConnectionManager := none } xrb [] (hgroups m (by rw [hx, hm]))
      simp only [BuildFilterChains, hx, hm]
      simpa using h
    · simp [List.map_map, Function.comp_def, groupChain]
    · simp [List.map_map, Function.comp_def, groupChain]
  · intro htls
    have hnone : xrb.certificatesWithDomains = none := by
      rw [hx]
      have := provideCertificates_none env vs index vh htls
      rw [this] at hcwd
      cases hcwd
      rfl
    refine ⟨hnone, plainChain xrb, ?_, rfl, rfl⟩
    rw [BuildFilterChains_plain env xrb hnone (hplain hnone)]

/-- The scenarios of C6: the auto-discovery scenario has two groups and gets
two chains; the same intent without TLS intent gets one chain. -/
theorem BuildFilterChains_count_witness :
    (∃ m chains, scenarioBuilder.certificatesWithDomains = some m ∧
        (BuildFilterChains (scenarioEnv scenarioDomains) scenarioBuilder).1 = .ok chains ∧
        chains.length = m.length ∧
        chains.map (fun c => c.DownstreamTlsContext) = m.map (fun e => some e.1) ∧
        chains.map (fun c => c.FilterChainMatch) = m.map (fun e => some e.2)) ∧
      (plainBuilder.certificatesWithDomains = none ∧
        ∃ chain, (BuildFilterChains (scenarioEnv scenarioDomains) plainBuilder).1 = .ok [chain] ∧
          chain.DownstreamTlsContext = none ∧
          chain.FilterChainMatch = some plainBuilder.virtualHost.Domains) :=
  ⟨(BuildFilterChains_count (scenarioEnv scenarioDomains)
      (scenarioService (some autoDiscoveryConfig)) scenarioIndex scenarioBuilder scenario_New
      (fun _ _ _ _ => rfl) (fun _ => rfl)).1 autoDiscoveryConfig rfl,
    (BuildFilterChains_count (scenarioEnv scenarioDomains) (scenarioService none) scenarioIndex
      plainBuilder scenario_New_plain (fun _ _ _ _ => rfl) (fun _ => rfl)).2 rfl⟩

theorem wrapUKSError_eq_ok {α : Type} (r : Except Error α) (msg : String) (a : α) :
    wrapUKSError r msg = .ok a ↔ r = .ok a := by
  cases r <;> simp [wrapUKSError]

/-- A virtual host that `buildVirtualHost` returns passed the validation. -/
theorem buildVirtualHost_validated (env : Env) (vs : VirtualService) (vh : VirtualHost)
    (h : buildVirtualHost env vs = .ok vh) : env.validateVirtualHost vh = none := by
  unfold buildVirtualHost at h
  simp only [bind_eq_ok, wrapUKSError_eq_ok] at h
  obtain ⟨decoded, _, routes, _, u, hcheck, hvh⟩ := h
  cases hvh
  cases hv : env.validateVirtualHost { decoded with Routes := routes } with
  | none => rfl
  | some err => rw [hv] at hcheck; simp [check] at hcheck

/-- The grouping of a successful auto-discovery over at least one served domain
has at least one entry. -/
theorem provideAutoDiscovery_ne_empty (msg : String) (tf : TlsFactory) (d : String)
    (rest : List String) (m : GoMap (List String))
    (hm : provideAutoDiscovery msg tf (d :: rest) = (some m, none)) : m ≠ [] := by
  have hloop : provideAutoDiscoveryLoop msg tf.certificatesIndex (d :: rest) [] = (m, none) := by
    simp only [provideAutoDiscovery, Prod.mk.injEq, Option.some.injEq] at hm
    exact Prod.ext hm.1 hm.2
  have hres := provideAutoDiscoveryLoop_resolved msg _ _ _ _ hloop d (List.mem_cons_self _ _)
  obtain ⟨secret, hsec⟩ := Option.isSome_iff_exists.1 hres
  obtain ⟨⟨ds, hin, _⟩, _⟩ := provideAutoDiscovery_entry_of_domain msg tf (d :: rest) m hm d
    (List.mem_cons_self _ _) _ (credentialKey_of_lookup _ d secret hsec)
  exact List.ne_nil_of_mem hin

/-- When the virtual host serves at least one domain, the grouping the TLS step
of `New` stores is nil or has at least one entry. -/
theorem provideCertificates_ne_empty (env : Env) (vs : VirtualService) (index : GoMap Secret)
    (vh : VirtualHost) (cwd : Option (GoMap (List String))) (hdom : vh.Domains ≠ [])
    (h : provideCertificates env vs index vh = .ok cwd) : cwd ≠ some [] := by
  intro hc
  subst hc
  cases htls : vs.Spec.TlsConfig with
  | none => simp [provideCertificates, htls] at h
  | some tc =>
    simp only [provideCertificates, htls, Provide, NewTlsFactory] at h
    cases ht : GetTLSType tc with
    | error e => rw [ht] at h; simp at h
    | ok t =>
      rw [ht] at h
      cases t with
      | unknown => simp at h
      | SecretRefType =>
        obtain ⟨ref, href⟩ := GetTLSType_secretRef tc ht
        simp [provideSecretRef, href] at h
      | AutoDiscoveryType =>
        cases hd : vh.Domains with
        | nil => exact hdom hd
        | cons d rest =>
          rw [hd] at h
          cases hp : provideAutoDiscovery env.DiscoverNotFoundMessage
              { TlsConfig := tc, vsNamespace := vs.Namespace, certificatesIndex := index }
              (d :: rest) with
          | mk grouping err =>
            rw [hp] at h
            cases err with
            | some e => simp at h
            | none =>
              simp only [Except.ok.injEq] at h
              subst h
              exact provideAutoDiscovery_ne_empty _ _ d rest [] hp rfl

/-- Under a validation that rejects a virtual host without domains, a builder
that `New` returned never holds a grouping with zero entries. -/
theorem New_grouping_nonempty (env : Env) (vs : VirtualService) (index : GoMap Secret)
    (xrb : XdsResourceBuilder) (hnew : New env vs index = .ok xrb)
    (hdomains : ∀ vh, env.validateVirtualHost vh = none → vh.Domains ≠ []) :
    xrb.certificatesWithDomains ≠ some [] := by
  obtain ⟨vh, _, cwd, hvh, _, hcwd, _, _, _, hx⟩ := New_ok_inv env vs index xrb hnew
  rw [hx]
  exact provideCertificates_ne_empty env vs index vh cwd
    (hdomains vh (buildVirtualHost_validated env vs vh hvh)) hcwd

theorem scenario_New_validating :
    New validatingEnv (scenarioService none) scenarioIndex = .ok plainBuilder := by
  rfl

/-- C7: for a builder that `New` returned, under the validation of the proxy
schema, which rejects a virtual host without domains, a domain grouping with no
entries is a grouping that was never computed (it is nil; resolution never
returns a grouping with zero entries to a builder), and `BuildFilterChains`
then returns exactly one filter chain, with no downstream TLS context, matched
on the full domain list of the virtual host, and leaves the builder as it was. -/
theorem BuildFilterChains_empty_grouping_single_chain (env : Env) (vs : VirtualService)
    (index : GoMap Secret) (xrb : XdsResourceBuilder) (hnew : New env vs index = .ok xrb)
    (hdomains : ∀ vh, env.validateVirtualHost vh = none → vh.Domains ≠ [])
    (hempty : ∀ m, xrb.certificatesWithDomains = some m → m = [])
    (hbuild : env.validateFilterChain (plainChain xrb) = none) :
    xrb.certificatesWithDomains = none ∧
      ∃ chain, BuildFilterChains env xrb = (.ok [chain], xrb) ∧
        chain.DownstreamTlsContext = none ∧
        chain.FilterChainMatch = some xrb.virtualHost.Domains := by
  have hnone : xrb.certificatesWithDomains = none := by
    cases hc : xrb.certificatesWithDomains with
    | none => rfl
    | some m =>
      have hm := hempty m hc
      subst hm
      exact absurd hc (New_grouping_nonempty env vs index xrb hnew hdomains)
  exact ⟨hnone, plainChain xrb, BuildFilterChains_plain env xrb hnone hbuild, rfl, rfl⟩

/-- The scenario of C7: the builder of the intent without TLS intent has a
grouping without entries, and gets one chain, without TLS context, matched on
the two served domains. -/
theorem BuildFilterChains_empty_grouping_single_chain_witness :
    plainBuilder.certificatesWithDomains = none ∧
      ∃ chain, BuildFilterChains validatingEnv plainBuilder = (.ok [chain], plainBuilder) ∧
        chain.DownstreamTlsContext = none ∧
        chain.FilterChainMatch = some plainBuilder.virtualHost.Domains :=
  BuildFilterChains_empty_grouping_single_chain validatingEnv (scenarioService none)
    scenarioIndex plainBuilder scenario_New_validating
    (fun vh h => by
      intro hd
      simp [validatingEnv, hd] at h)
    (fun m h => by cases h) rfl

/-- C8: the route configuration of a builder that `New` returned has the
identity of the intent as its name and exactly one virtual host, whose domain
list is `["*"]` and whose routes and headers are those of the virtual host of
the builder; and after any number of `BuildFilterChains` calls
`GetRouteConfiguration` returns the same route configuration. -/
theorem GetRouteConfiguration_wildcard_domains (env : Env) (vs : VirtualService)
    (index : GoMap Secret) (xrb : XdsResourceBuilder) (hnew : New env vs index = .ok xrb) :
    GetRouteConfiguration xrb =
        { Name := GetResourceName vs.Namespace vs.Name
          VirtualHosts := [{ Name := GetResourceName vs.Namespace vs.Name
                             Domains := ["*"]
                             Routes := xrb.virtualHost.Routes
                             RequestHeadersToAdd := xrb.virtualHost.RequestHeadersToAdd
                             Rest := .null }] } ∧
      (GetRouteConfiguration xrb).Name = GetResourceName vs.Namespace vs.Name ∧
      (GetRouteConfiguration xrb).VirtualHosts.map (fun v => v.Domains) = [["*"]] ∧
      ∀ n, GetRouteConfiguration (afterBuildFilterChains env n xrb) = GetRouteConfiguration xrb := by
  obtain ⟨vh, routeConfig, cwd, _, hrc, _, _, hvh, hroute, _⟩ := New_ok_inv env vs index xrb hnew
  have hshape : GetRouteConfiguration xrb =
      { Name := GetResourceName vs.Namespace vs.Name
        VirtualHosts := [{ Name := GetResourceName vs.Namespace vs.Name
                           Domains := ["*"]
                           Routes := xrb.virtualHost.Routes
                           RequestHeadersToAdd := xrb.virtualHost.RequestHeadersToAdd
                           Rest := .null }] } := by
    simp only [buildRouteConfiguration] at hrc
    split at hrc
    · cases hrc
    · cases hrc
      rw [GetRouteConfiguration, hroute, hvh]
  refine ⟨hshape, by rw [hshape], by rw [hshape]; rfl, ?_⟩
  intro n
  simp only [GetRouteConfiguration]
  exact afterBuildFilterChains_routeConfig env n xrb

/-- The scenario of C8: the route configuration of the auto-discovery scenario
has the domain list `["*"]`, also after three `BuildFilterChains` calls, which
narrow the virtual host of the builder to `b.example.com`. -/
theorem GetRouteConfiguration_wildcard_domains_witness :
    (GetRouteConfiguration scenarioBuilder).Name = "edge/web" ∧
      (GetRouteConfiguration scenarioBuilder).VirtualHosts.map (fun v => v.Domains) = [["*"]] ∧
      (afterBuildFilterChains (scenarioEnv scenarioDomains) 3 scenarioBuilder).virtualHost.Domains =
        ["b.example.com"] ∧
      ∀ n, GetRouteConfiguration (afterBuildFilterChains (scenarioEnv scenarioDomains) n
        scenarioBuilder) = GetRouteConfiguration scenarioBuilder :=
  ⟨rfl, rfl, rfl,
    (GetRouteConfiguration_wildcard_domains (scenarioEnv scenarioDomains)
      (scenarioService (some autoDiscoveryConfig)) scenarioIndex scenarioBuilder
      scenario_New).2.2.2⟩

/-! ### The access-log step of the construction -/

/-- C12: for an intent with both the inline access-log configuration and the
access-log reference set, `buildAccessLog` returns the multiple-access-log
error and `New` returns that error, wrapped by the access-log step, and no
builder; the result is the same for every store, every decoder, every
certificate index and every other content of the intent, so no other step has
a part in it and no linked object is fetched. -/
theorem New_multiple_access_log (env : Env) (vs : VirtualService) (index : GoMap Secret)
    (raw : Raw) (ref : ResourceRef)
    (hinline : vs.Spec.AccessLog = some raw) (href : vs.Spec.AccessLogConfig = some ref) :
    buildAccessLog env vs (GetResourceName vs.Namespace vs.Name) =
        .error (.new env.MultipleAccessLogConfigMessage) ∧
      New env vs index =
        .error (.wrap (.new env.MultipleAccessLogConfigMessage)
          "cannot create Access Log for Virtual Service") ∧
      ∀ (env2 : Env) (vs2 : VirtualService) (index2 : GoMap Secret),
        env2.MultipleAccessLogConfigMessage = env.MultipleAccessLogConfigMessage →
        vs2.Spec.AccessLog.isSome = true → vs2.Spec.AccessLogConfig.isSome = true →
        New env2 vs2 index2 = New env vs index := by
  have hb : ∀ (e : Env) (v : VirtualService), v.Spec.AccessLog.isSome = true →
      v.Spec.AccessLogConfig.isSome = true →
      buildAccessLog e v (GetResourceName v.Namespace v.Name) =
        .error (.new e.MultipleAccessLogConfigMessage) := by
    intro e v h1 h2
    obtain ⟨a, ha⟩ := Option.isSome_iff_exists.1 h1
    obtain ⟨b, hb⟩ := Option.isSome_iff_exists.1 h2
    simp [buildAccessLog, ha, hb]
  have hn : ∀ (e : Env) (v : VirtualService) (i : GoMap Secret),
      v.Spec.AccessLog.isSome = true → v.Spec.AccessLogConfig.isSome = true →
      New e v i = .error (.wrap (.new e.MultipleAccessLogConfigMessage)
        "cannot create Access Log for Virtual Service") := by
    intro e v i h1 h2
    unfold New
    simp only [hb e v h1 h2, wrapError, bind, Except.bind]
  have h1 : vs.Spec.AccessLog.isSome = true := by simp [hinline]
  have h2 : vs.Spec.AccessLogConfig.isSome = true := by simp [href]
  refine ⟨hb env vs h1 h2, hn env vs index h1 h2, ?_⟩
  intro env2 vs2 index2 hmsg g1 g2
  rw [hn env2 vs2 index2 g1 g2, hn env vs index h1 h2, hmsg]

/-- The scenario of C12: in a world where every fetch fails and no payload
decodes, the intent with both access-log settings still fails with the
multiple-access-log error, not with an error of a fetch or a decoder. -/
theorem New_multiple_access_log_witness :
    buildAccessLog unreachableEnv bothLogsService "edge/web" =
        .error (.new "multiple access log config") ∧
      New unreachableEnv bothLogsService scenarioIndex =
        .error (.wrap (.new "multiple access log config")
          "cannot create Access Log for Virtual Service") ∧
      ∀ (env2 : Env) (vs2 : VirtualService) (index2 : GoMap Secret),
        env2.MultipleAccessLogConfigMessage = "multiple access log config" →
        vs2.Spec.AccessLog.isSome = true → vs2.Spec.AccessLogConfig.isSome = true →
        New env2 vs2 index2 = New unreachableEnv bothLogsService scenarioIndex :=
  New_multiple_access_log unreachableEnv bothLogsService scenarioIndex "inline"
    { Name := "access-log", Namespace := none } rfl rfl

/-! ### The order of the filter chains -/

/-- C15, amended: the chains `BuildFilterChains` returns follow the order in
which the entries of the grouping are enumerated: the `i`-th chain is the chain
of the `i`-th enumerated entry. Two runs over the same grouping, enumerated in
two orders, return the same chains, one for each entry, in the two orders of
enumeration: each chain list is a permutation of the other. -/
theorem BuildFilterChains_order_follows_enumeration (env : Env) (xrb : XdsResourceBuilder)
    (m m2 : GoMap (List String)) (hm : xrb.certificatesWithDomains = some m)
    (hperm : m.Perm m2)
    (hvalid : ∀ e ∈ m, env.validateFilterChain (groupChain xrb e) = none) :
    (BuildFilterChains env xrb).1 = .ok (m.map (groupChain xrb)) ∧
      (BuildFilterChains env { xrb with certificatesWithDomains := some m2 }).1 =
        .ok (m2.map (groupChain xrb)) ∧
      (m.map (groupChain xrb)).Perm (m2.map (groupChain xrb)) := by
  refine ⟨?_, ?_, hperm.map _⟩
  · have h := buildFilterChainsLoop_ok env m
      { downstreamTlsContext := none, filterChainMatch := none,
        httpConnectionManager := none } xrb [] hvalid
    simp only [BuildFilterChains, hm]
    simpa using h
  · have h := buildFilterChainsLoop_ok env m2
      { downstreamTlsContext := none, filterChainMatch := none,
        httpConnectionManager := none }
      { xrb with certificatesWithDomains := some m2 } []
      (fun e he => hvalid e (hperm.mem_iff.2 he))
    simp only [BuildFilterChains]
    simpa using h

/-- The scenario of C15: the two entries of the scenario grouping, enumerated
in the two possible orders, give the same two chains in the two orders. -/
theorem BuildFilterChains_order_follows_enumeration_witness :
    (BuildFilterChains (scenarioEnv scenarioDomains) scenarioBuilder).1 =
        .ok [groupChain scenarioBuilder ("certs/cred-a", ["a.example.com"]),
             groupChain scenarioBuilder ("certs/cred-b", ["b.example.com"])] ∧
      (BuildFilterChains (scenarioEnv scenarioDomains) swappedBuilder).1 =
        .ok [groupChain scenarioBuilder ("certs/cred-b", ["b.example.com"]),
             groupChain scenarioBuilder ("certs/cred-a", ["a.example.com"])] ∧
      [groupChain scenarioBuilder ("certs/cred-a", ["a.example.com"]),
        groupChain scenarioBuilder ("certs/cred-b", ["b.example.com"])].Perm
        [groupChain scenarioBuilder ("certs/cred-b", ["b.example.com"]),
          groupChain scenarioBuilder ("certs/cred-a", ["a.example.com"])] :=
  BuildFilterChains_order_follows_enumeration (scenarioEnv scenarioDomains) scenarioBuilder
    [("certs/cred-a", ["a.example.com"]), ("certs/cred-b", ["b.example.com"])]
    [("certs/cred-b", ["b.example.com"]), ("certs/cred-a", ["a.example.com"])]
    rfl (List.Perm.swap _ _ _) (fun _ _ => rfl)

/-- C15 as stated fails: the grouping of the scenario has two entries, and the
two orders of enumerating them give the chain of `certs/cred-a` first in one
run and the chain of `certs/cred-b` first in the other, so the two runs do not
return the chains in the same order. -/
theorem BuildFilterChains_order_depends_on_enumeration :
    (∀ k, GoMap.get [("certs/cred-a", ["a.example.com"]), ("certs/cred-b", ["b.example.com"])] k
        = GoMap.get [("certs/cred-b", ["b.example.com"]), ("certs/cred-a", ["a.example.com"])] k) ∧
      (∃ chains, (BuildFilterChains (scenarioEnv scenarioDomains) scenarioBuilder).1 = .ok chains ∧
        chains.map (fun c => c.DownstreamTlsContext) = [some "certs/cred-a", some "certs/cred-b"]) ∧
      (∃ chains, (BuildFilterChains (scenarioEnv scenarioDomains) swappedBuilder).1 = .ok chains ∧
        chains.map (fun c => c.DownstreamTlsContext) = [some "certs/cred-b", some "certs/cred-a"]) ∧
      (BuildFilterChains (scenarioEnv scenarioDomains) scenarioBuilder).1 ≠
        (BuildFilterChains (scenarioEnv scenarioDomains) swappedBuilder).1 := by
  refine ⟨?_, ⟨_, rfl, rfl⟩, ⟨_, rfl, rfl⟩, ?_⟩
  · intro k
    by_cases ha : "certs/cred-a" = k
    · subst ha; decide
    · by_cases hb : "certs/cred-b" = k
      · subst hb; decide
      · simp [GoMap.get, ha, hb]
  · intro h
    have h1 : (BuildFilterChains (scenarioEnv scenarioDomains) scenarioBuilder).1 =
        .ok [groupChain scenarioBuilder ("certs/cred-a", ["a.example.com"]),
             groupChain scenarioBuilder ("certs/cred-b", ["b.example.com"])] := rfl
    have h2 : (BuildFilterChains (scenarioEnv scenarioDomains) swappedBuilder).1 =
        .ok [groupChain scenarioBuilder ("certs/cred-b", ["b.example.com"]),
             groupChain scenarioBuilder ("certs/cred-a", ["a.example.com"])] := rfl
    rw [h1, h2] at h
    have h3 := congrArg (fun r : Except Error (List FilterChain) =>
      match r with
      | .ok (c :: _) => c.DownstreamTlsContext
      | _ => none) h
    simp [groupChain] at h3

/-! ### The used-resource manifest: clusters -/

theorem matchClusterLoop_ok (env : Env) (clusterV3Name : String) :
    ∀ (items : List ClusterCR) (resourceRefs : List ResourceRef),
      (∀ c ∈ items, ∃ v3, env.unmarshalCluster c.Spec = .ok v3) →
      matchClusterLoop env clusterV3Name items resourceRefs =
        (resourceRefs ++ matchingRefs env clusterV3Name items, none) := by
  intro items
  induction items with
  | nil => intro refs _; simp [matchClusterLoop, matchingRefs]
  | cons c rest ih =>
    intro refs hall
    obtain ⟨v3, hv3⟩ := hall c (List.mem_cons_self _ _)
    have hrest := fun refs2 => ih refs2 (fun x hx => hall x (List.mem_cons_of_mem _ hx))
    by_cases hname : v3.Name = clusterV3Name
    · simp only [matchClusterLoop, hv3, hname, if_true, hrest]
      simp [matchingRefs, List.filterMap_cons, hv3, hname, clusterRef]
    · simp only [matchClusterLoop, hv3, hname, if_false, hrest]
      simp [matchingRefs, List.filterMap_cons, hv3, hname]

theorem usedClustersLoop_ok (env : Env) (items : List ClusterCR)
    (hdecode : ∀ c ∈ items, ∃ v3, env.unmarshalCluster c.Spec = .ok v3) :
    ∀ (used : List Cluster) (resourceRefs : List ResourceRef),
      usedClustersLoop env items used resourceRefs =
        (resourceRefs ++ used.flatMap (fun u => matchingRefs env u.Name items), none) := by
  intro used
  induction used with
  | nil => intro refs; simp [usedClustersLoop]
  | cons u rest ih =>
    intro refs
    simp only [usedClustersLoop, matchClusterLoop_ok env u.Name items refs hdecode, ih]
    simp

theorem mem_matchingRefs (env : Env) (name : String) (items : List ClusterCR)
    (r : ResourceRef) :
    r ∈ matchingRefs env name items ↔
      ∃ c ∈ items, ∃ v3, env.unmarshalCluster c.Spec = .ok v3 ∧ v3.Name = name ∧
        r = clusterRef c := by
  simp only [matchingRefs, List.mem_filterMap]
  constructor
  · rintro ⟨c, hc, h⟩
    cases hv : env.unmarshalCluster c.Spec with
    | error e => rw [hv] at h; simp at h
    | ok v3 =>
      rw [hv] at h
      by_cases hn : v3.Name = name
      · simp only [hn, if_true, Option.some.injEq] at h
        exact ⟨c, hc, v3, hv, hn, h.symm⟩
      · simp [hn] at h
  · rintro ⟨c, hc, v3, hv, hn, rfl⟩
    exact ⟨c, hc, by simp [hv, hn]⟩

/-- C13, amended: when the listing succeeds and every listed payload decodes,
the cluster list of the manifest is, for each cluster in the used clusters of
the builder in order (one for each resolved reference found in the routes, so
repeated when a name is referenced repeatedly), the references of the listed
objects whose embedded proxy cluster name equals its name, an empty namespace
read as `default`; the identity of a listed object has no part in the match, a
name without matching object adds nothing and no error, and `GetUsedResources`
returns that list. -/
theorem getUsedClustersResourceRefs_lists_matches (env : Env) (xrb : XdsResourceBuilder)
    (ns : String) (items : List ClusterCR)
    (hlist : env.listClusters (if ns = "default" then "" else ns) = .ok items)
    (hdecode : ∀ c ∈ items, ∃ v3, env.unmarshalCluster c.Spec = .ok v3) :
    getUsedClustersResourceRefs env xrb ns =
        (xrb.usedClusters.flatMap (fun u => matchingRefs env u.Name items), none) ∧
      GetUsedResources env xrb ns =
        .ok { SecretType := getUsedSecretsResourceRefs env xrb
              ClusterType := xrb.usedClusters.flatMap (fun u => matchingRefs env u.Name items) } ∧
      (∀ name r, r ∈ matchingRefs env name items ↔
        ∃ c ∈ items, ∃ v3, env.unmarshalCluster c.Spec = .ok v3 ∧ v3.Name = name ∧
          r = clusterRef c) ∧
      (∀ name, (∀ c ∈ items, ∀ v3, env.unmarshalCluster c.Spec = .ok v3 → v3.Name ≠ name) →
        matchingRefs env name items = []) := by
  have h1 : getUsedClustersResourceRefs env xrb ns =
      (xrb.usedClusters.flatMap (fun u => matchingRefs env u.Name items), none) := by
    simp only [getUsedClustersResourceRefs, hlist]
    rw [usedClustersLoop_ok env items hdecode]
    simp
  refine ⟨h1, ?_, fun name r => mem_matchingRefs env name items r, ?_⟩
  · simp only [GetUsedResources, h1]
  · intro name hnone
    apply List.eq_nil_iff_forall_not_mem.2
    intro r hr
    obtain ⟨c, hc, v3, hv, hn, _⟩ := (mem_matchingRefs env name items r).1 hr
    exact hnone c hc v3 hv hn

/-- The scenario of C13: the builder with two references to `backend` gets the
reference to `backend-cr` once for each of them; `other-cr` is not listed. -/
theorem getUsedClustersResourceRefs_lists_matches_witness :
    getUsedClustersResourceRefs clusterEnv clusterBuilder "edge" =
        (clusterBuilder.usedClusters.flatMap
          (fun u => matchingRefs clusterEnv u.Name clusterItems), none) ∧
      matchingRefs clusterEnv "backend" clusterItems =
        [{ Name := "backend-cr", Namespace := some "edge" }] ∧
      matchingRefs clusterEnv "missing" clusterItems = [] :=
  ⟨(getUsedClustersResourceRefs_lists_matches clusterEnv clusterBuilder "edge" clusterItems rfl
      (fun c _ => ⟨{ Name := c.Spec, Rest := .null }, rfl⟩)).1,
    by decide, by decide⟩

/-- C13 as stated fails: the virtual host has two routes to the cluster
`backend`; `New` records the cluster once for each route, and the cluster list
of the manifest holds the reference to `backend-cr` twice. -/
theorem getUsedClustersResourceRefs_repeats_references :
    New clusterEnv (scenarioService none) scenarioIndex = .ok clusterBuilder ∧
      clusterBuilder.usedClusters.map (fun c => c.Name) = ["backend", "backend"] ∧
      getUsedClustersResourceRefs clusterEnv clusterBuilder "edge" =
        ([{ Name := "backend-cr", Namespace := some "edge" },
          { Name := "backend-cr", Namespace := some "edge" }], none) ∧
      ¬ (getUsedClustersResourceRefs clusterEnv clusterBuilder "edge").1.Nodup := by
  refine ⟨rfl, rfl, by decide, by decide⟩

/-! ### The used-resource manifest: secrets -/

theorem makeEnvoyOpaqueSecretLoop_mem (validate : EnvoySecret → Option Error) (s : Secret) :
    ∀ (blobs : GoMap Bytes) (secrets out : List EnvoySecret),
      makeEnvoyOpaqueSecretLoop validate s blobs secrets = .ok out →
      ∀ r ∈ out, r ∈ secrets ∨ ∃ k v, r = opaqueRecord s k v := by
  intro blobs
  induction blobs with
  | nil =>
    intro secrets out h r hr
    simp only [makeEnvoyOpaqueSecretLoop, Except.ok.injEq] at h
    subst h
    exact Or.inl hr
  | cons e rest ih =>
    intro secrets out h r hr
    obtain ⟨k, v⟩ := e
    simp only [makeEnvoyOpaqueSecretLoop] at h
    split at h
    · cases h
    · rcases ih _ _ h r hr with hin | hex
      · rcases List.mem_append.1 hin with h1 | h2
        · exact Or.inl h1
        · simp only [List.mem_singleton] at h2
          exact Or.inr ⟨k, v, h2⟩
      · exact Or.inr hex

/-- Every record of a credential object is its keypair record or the record of
one of its blobs. -/
theorem makeEnvoySecretFromKubernetesSecret_mem (validate : EnvoySecret → Option Error)
    (s : Secret) (records : List EnvoySecret)
    (h : makeEnvoySecretFromKubernetesSecret validate s = .ok records) :
    ∀ r ∈ records, r = tlsRecord s ∨ ∃ k v, r = opaqueRecord s k v := by
  intro r hr
  unfold makeEnvoySecretFromKubernetesSecret at h
  split at h
  · simp only [makeEnvoyTLSSecret] at h
    split at h
    · cases h
    · cases h
      simp only [List.nil_append, List.mem_singleton] at hr
      exact Or.inl hr
  · split at h
    · rcases makeEnvoyOpaqueSecretLoop_mem validate s _ _ _ h r hr with hin | hex
      · simp at hin
      · exact Or.inr hex
    · cases h

/-- When the name of every used secret splits, the loop of
`getUsedSecretsResourceRefs` appends one reference for each, in order. -/
theorem getUsedSecretsResourceRefsLoop_ok (env : Env) (owner : EnvoySecret → String × String) :
    ∀ (used : List EnvoySecret) (resourceRefs : List ResourceRef),
      (∀ r ∈ used, env.SplitResourceName r.Name = .ok (owner r)) →
      getUsedSecretsResourceRefsLoop env used resourceRefs =
        resourceRefs ++ used.map (fun r => { Name := (owner r).2, Namespace := some (owner r).1 }) := by
  intro used
  induction used with
  | nil => intro refs _; simp [getUsedSecretsResourceRefsLoop]
  | cons r rest ih =>
    intro refs hall
    have hr := hall r (List.mem_cons_self _ _)
    simp only [getUsedSecretsResourceRefsLoop, hr]
    rw [ih _ (fun x hx => hall x (List.mem_cons_of_mem _ hx))]
    simp

/-- When the name of some used secret does not split, `getUsedSecretsResourceRefs`
returns the nil list: the references collected before it are dropped too. -/
theorem getUsedSecretsResourceRefsLoop_error (env : Env) :
    ∀ (used : List EnvoySecret) (resourceRefs : List ResourceRef),
      (∃ r ∈ used, ∃ e, env.SplitResourceName r.Name = .error e) →
      getUsedSecretsResourceRefsLoop env used resourceRefs = [] := by
  intro used
  induction used with
  | nil => intro refs h; obtain ⟨r, hr, _⟩ := h; simp at hr
  | cons x rest ih =>
    intro refs h
    obtain ⟨r, hr, e, he⟩ := h
    cases hx : env.SplitResourceName x.Name with
    | error e2 => simp [getUsedSecretsResourceRefsLoop, hx]
    | ok p =>
      simp only [getUsedSecretsResourceRefsLoop, hx]
      rcases List.mem_cons.1 hr with rfl | hin
      · rw [hx] at he; cases he
      · exact ih _ ⟨r, hin, e, he⟩

/-- The records the secret loops of `fillUsedSecrets` append are, object by
object, the translations of credential objects fetched from the store. -/
theorem appendSecrets_translated (env : Env) (splitMessage : String) :
    ∀ (names : List String) (v3Secrets out : List EnvoySecret),
      appendSecrets env splitMessage names v3Secrets = .ok out →
      ∃ objects : List (Secret × List EnvoySecret),
        out = v3Secrets ++ objects.flatMap (fun p => p.2) ∧
        ∀ p ∈ objects, (∃ ns name, env.getSecret ns name = .ok p.1) ∧
          makeEnvoySecretFromKubernetesSecret env.validateSecret p.1 = .ok p.2 := by
  intro names
  induction names with
  | nil =>
    intro acc out h
    simp only [appendSecrets, Except.ok.injEq] at h
    exact ⟨[], by simp [h], fun p hp => by simp at hp⟩
  | cons secretName rest ih =>
    intro acc out h
    simp only [appendSecrets] at h
    split at h
    · cases h
    · rename_i ns name _
      cases hget : getEnvoySecret env ns name with
      | error e => rw [hget] at h; cases h
      | ok v3Secret =>
        rw [hget] at h
        obtain ⟨objects, hout, hall⟩ := ih _ _ h
        simp only [getEnvoySecret] at hget
        cases hs : env.getSecret ns name with
        | error e => rw [hs] at hget; cases hget
        | ok kubeSecret =>
          rw [hs] at hget
          refine ⟨(kubeSecret, v3Secret) :: objects, ?_, ?_⟩
          · rw [hout]; simp
          · intro p hp
            rcases List.mem_cons.1 hp with rfl | hin
            · exact ⟨⟨ns, name, hs⟩, hget⟩
            · exact hall p hin

theorem appendFilterSecrets_translated (env : Env) :
    ∀ (filters : List HttpFilter) (v3Secrets out : List EnvoySecret),
      appendFilterSecrets env filters v3Secrets = .ok out →
      ∃ objects : List (Secret × List EnvoySecret),
        out = v3Secrets ++ objects.flatMap (fun p => p.2) ∧
        ∀ p ∈ objects, (∃ ns name, env.getSecret ns name = .ok p.1) ∧
          makeEnvoySecretFromKubernetesSecret env.validateSecret p.1 = .ok p.2 := by
  intro filters
  induction filters with
  | nil =>
    intro acc out h
    simp only [appendFilterSecrets, Except.ok.injEq] at h
    exact ⟨[], by simp [h], fun p hp => by simp at hp⟩
  | cons filter rest ih =>
    intro acc out h
    simp only [appendFilterSecrets] at h
    split at h
    · cases h
    · split at h
      · cases h
      · rename_i data _
        cases ha : appendSecrets env "cannot split secret name"
            (findSDSNames env.sprintv data "sds_config") acc with
        | error e => rw [ha] at h; cases h
        | ok mid =>
          rw [ha] at h
          obtain ⟨o1, hmid, h1⟩ := appendSecrets_translated env _ _ _ _ ha
          obtain ⟨o2, hout, h2⟩ := ih _ _ h
          refine ⟨o1 ++ o2, ?_, ?_⟩
          · rw [hout, hmid]; simp
          · intro p hp
            rcases List.mem_append.1 hp with hin | hin
            · exact h1 p hin
            · exact h2 p hin

/-- The used secrets of a builder that `New` returned are, object by object,
the translations of credential objects fetched from the store. -/
theorem New_usedSecrets_translated (env : Env) (vs : VirtualService) (index : GoMap Secret)
    (xrb : XdsResourceBuilder) (h : New env vs index = .ok xrb) :
    ∃ objects : List (Secret × List EnvoySecret),
      xrb.usedSecrets = objects.flatMap (fun p => p.2) ∧
      ∀ p ∈ objects, (∃ ns name, env.getSecret ns name = .ok p.1) ∧
        makeEnvoySecretFromKubernetesSecret env.validateSecret p.1 = .ok p.2 := by
  unfold New at h
  simp only [bind_eq_ok, wrapError_eq_ok] at h
  obtain ⟨accessLog, _, vh, _, httpFilters, _, routeConfig, _, upgradeConfigs, _, cwd, _,
    withSecrets, hsec, hclu⟩ := h
  obtain ⟨clusters, rfl⟩ := fillUsedClusters_fields env _ _ hclu
  simp only [fillUsedSecrets] at hsec
  split at hsec
  · cases hsec
  · rename_i fromCertificates h1
    split at hsec
    · cases hsec
    · rename_i v3Secrets h2
      cases hsec
      obtain ⟨o1, e1, a1⟩ := appendSecrets_translated env _ _ _ _ h1
      obtain ⟨o2, e2, a2⟩ := appendFilterSecrets_translated env _ _ _ h2
      refine ⟨o1 ++ o2, ?_, ?_⟩
      · simp only [e2, e1]; simp
      · intro p hp
        rcases List.mem_append.1 hp with hin | hin
        · exact a1 p hin
        · exact a2 p hin

/-! ### The order of enumeration in the tree search -/

theorem ReorderedFields_keys : ∀ (fs mid : List (String × Json)),
    Json.ReorderedFields fs mid → GoMap.keys mid = GoMap.keys fs := by
  intro fs
  induction fs with
  | nil => intro mid h; simp only [Json.ReorderedFields] at h; subst h; rfl
  | cons e rest ih =>
    intro mid h
    obtain ⟨k, v⟩ := e
    simp only [Json.ReorderedFields] at h
    obtain ⟨w, tail, rfl, _, hrest⟩ := h
    have := ih tail hrest
    simp only [GoMap.keys] at this ⊢
    simp [this]

theorem ReorderedFields_get : ∀ (fs mid : List (String × Json)),
    Json.ReorderedFields fs mid → ∀ k,
      (GoMap.get fs k = none ∧ GoMap.get mid k = none) ∨
        ∃ v w, GoMap.get fs k = some v ∧ GoMap.get mid k = some w ∧ Json.Reordered v w := by
  intro fs
  induction fs with
  | nil =>
    intro mid h k
    simp only [Json.ReorderedFields] at h
    subst h
    exact Or.inl ⟨rfl, rfl⟩
  | cons e rest ih =>
    intro mid h k
    obtain ⟨k2, v⟩ := e
    simp only [Json.ReorderedFields] at h
    obtain ⟨w, tail, rfl, hvw, hrest⟩ := h
    by_cases hk : k2 = k
    · exact Or.inr ⟨v, w, by simp [GoMap.get, hk], by simp [GoMap.get, hk], hvw⟩
    · simpa [GoMap.get, hk] using ih tail hrest k

theorem get_eq_of_perm {V : Type} (m m2 : GoMap V) (hperm : m.Perm m2)
    (hnd : m.keys.Nodup) (k : String) : m.get k = m2.get k := by
  have hnd2 : m2.keys.Nodup := (hperm.map Prod.fst).nodup_iff.1 hnd
  cases h1 : m.get k with
  | some v =>
    have := GoMap.mem_of_get_eq_some m k v h1
    exact (GoMap.get_eq_some_of_mem m2 hnd2 k v (hperm.mem_iff.1 this)).symm
  | none =>
    cases h2 : m2.get k with
    | none => rfl
    | some v =>
      have := GoMap.mem_of_get_eq_some m2 k v h2
      rw [GoMap.get_eq_some_of_mem m hnd k v (hperm.mem_iff.2 this)] at h1
      cases h1

theorem findSDSNamesFields_perm_entries (sprintv : Json → String) (key : String) (nv : Json)
    (m m2 : List (String × Json)) (hperm : m.Perm m2) :
    (findSDSNamesFields sprintv nv m key).Perm (findSDSNamesFields sprintv nv m2 key) := by
  induction hperm with
  | nil => exact List.Perm.refl _
  | cons x _ ih =>
    obtain ⟨k, v⟩ := x
    simp only [findSDSNamesFields]
    exact List.Perm.append_left _ ih
  | swap x y l =>
    obtain ⟨k, v⟩ := x
    obtain ⟨k2, v2⟩ := y
    simp only [findSDSNamesFields]
    generalize (if k = key then [sprintv nv] else []) ++ findSDSNames sprintv v key = X
    generalize (if k2 = key then [sprintv nv] else []) ++ findSDSNames sprintv v2 key = Y
    generalize findSDSNamesFields sprintv nv l key = R
    rw [← List.append_assoc, ← List.append_assoc]
    exact List.Perm.append_right _ List.perm_append_comm
  | trans _ _ ih1 ih2 => exact ih1.trans ih2

theorem findClusterNamesFields_perm_entries (sprintv : Json → String) (key : String)
    (m m2 : List (String × Json)) (hperm : m.Perm m2) :
    (findClusterNamesFields sprintv m key).Perm (findClusterNamesFields sprintv m2 key) := by
  induction hperm with
  | nil => exact List.Perm.refl _
  | cons x _ ih =>
    obtain ⟨k, v⟩ := x
    simp only [findClusterNamesFields]
    exact List.Perm.append_left _ ih
  | swap x y l =>
    obtain ⟨k, v⟩ := x
    obtain ⟨k2, v2⟩ := y
    simp only [findClusterNamesFields]
    generalize (if k = key then [sprintv v] else []) ++ findClusterNames sprintv v key = X
    generalize (if k2 = key then [sprintv v2] else []) ++ findClusterNames sprintv v2 key = Y
    generalize findClusterNamesFields sprintv l key = R
    rw [← List.append_assoc, ← List.append_assoc]
    exact List.Perm.append_right _ List.perm_append_comm
  | trans _ _ ih1 ih2 => exact ih1.trans ih2

mutual
theorem findSDSNames_reordered (sprintv : Json → String)
    (hinv : ∀ a b, Json.Reordered a b → sprintv a = sprintv b) (key : String) :
    ∀ (t1 t2 : Json), Json.Reordered t1 t2 → t1.distinctKeys = true →
      (findSDSNames sprintv t1 key).Perm (findSDSNames sprintv t2 key)
  | .obj fs, t2, h, hd => by
    simp only [Json.Reordered] at h
    obtain ⟨mid, other, rfl, hfs, hperm⟩ := h
    simp only [Json.distinctKeys, Bool.and_eq_true, decide_eq_true_eq] at hd
    have hndmid : (GoMap.keys mid).Nodup := by rw [ReorderedFields_keys fs mid hfs]; exact hd.1
    have hname : sprintv ((GoMap.get fs "name").getD .null) =
        sprintv ((GoMap.get other "name").getD .null) := by
      rw [← get_eq_of_perm mid other hperm hndmid "name"]
      rcases ReorderedFields_get fs mid hfs "name" with ⟨h1, h2⟩ | ⟨v, w, h1, h2, hvw⟩
      · rw [h1, h2]
      · rw [h1, h2]; exact hinv v w hvw
    simp only [findSDSNames]
    exact (findSDSNamesFields_reordered sprintv hinv key fs mid hfs hd.2 _ _ hname).trans
      (findSDSNamesFields_perm_entries sprintv key _ mid other hperm)
  | .arr items, t2, h, hd => by
    simp only [Json.Reordered] at h
    obtain ⟨other, rfl, hitems⟩ := h
    simp only [Json.distinctKeys] at hd
    simp only [findSDSNames]
    exact findSDSNamesItems_reordered sprintv hinv key items other hitems hd
  | .null, t2, h, _ => by simp only [Json.Reordered] at h; subst h; exact List.Perm.refl _
  | .bool _, t2, h, _ => by simp only [Json.Reordered] at h; subst h; exact List.Perm.refl _
  | .num _, t2, h, _ => by simp only [Json.Reordered] at h; subst h; exact List.Perm.refl _
  | .str _, t2, h, _ => by simp only [Json.Reordered] at h; subst h; exact List.Perm.refl _
theorem findSDSNamesFields_reordered (sprintv : Json → String)
    (hinv : ∀ a b, Json.Reordered a b → sprintv a = sprintv b) (key : String) :
    ∀ (fs mid : List (String × Json)), Json.ReorderedFields fs mid →
      Json.distinctKeysFields fs = true → ∀ (nv1 nv2 : Json), sprintv nv1 = sprintv nv2 →
      (findSDSNamesFields sprintv nv1 fs key).Perm (findSDSNamesFields sprintv nv2 mid key)
  | [], mid, h, _, _, _, _ => by
    simp only [Json.ReorderedFields] at h; subst h; exact List.Perm.refl _
  | (k, v) :: rest, mid, h, hd, nv1, nv2, hnv => by
    simp only [Json.ReorderedFields] at h
    obtain ⟨w, tail, rfl, hvw, hrest⟩ := h
    simp only [Json.distinctKeysFields, Bool.and_eq_true] at hd
    simp only [findSDSNamesFields, hnv]
    exact List.Perm.append
      (List.Perm.append_left _ (findSDSNames_reordered sprintv hinv key v w hvw hd.1))
      (findSDSNamesFields_reordered sprintv hinv key rest tail hrest hd.2 nv1 nv2 hnv)
theorem findSDSNamesItems_reordered (sprintv : Json → String)
    (hinv : ∀ a b, Json.Reordered a b → sprintv a = sprintv b) (key : String) :
    ∀ (items other : List Json), Json.ReorderedItems items other →
      Json.distinctKeysItems items = true →
      (findSDSNamesItems sprintv items key).Perm (findSDSNamesItems sprintv other key)
  | [], other, h, _ => by
    simp only [Json.ReorderedItems] at h; subst h; exact List.Perm.refl _
  | item :: rest, other, h, hd => by
    simp only [Json.ReorderedItems] at h
    obtain ⟨w, tail, rfl, hvw, hrest⟩ := h
    simp only [Json.distinctKeysItems, Bool.and_eq_true] at hd
    simp only [findSDSNamesItems]
    exact List.Perm.append (findSDSNames_reordered sprintv hinv key item w hvw hd.1)
      (findSDSNamesItems_reordered sprintv hinv key rest tail hrest hd.2)
end

mutual
theorem findClusterNames_reordered (sprintv : Json → String)
    (hinv : ∀ a b, Json.Reordered a b → sprintv a = sprintv b) (key : String) :
    ∀ (t1 t2 : Json), Json.Reordered t1 t2 →
      (findClusterNames sprintv t1 key).Perm (findClusterNames sprintv t2 key)
  | .obj fs, t2, h => by
    simp only [Json.Reordered] at h
    obtain ⟨mid, other, rfl, hfs, hperm⟩ := h
    simp only [findClusterNames]
    exact (findClusterNamesFields_reordered sprintv hinv key fs mid hfs).trans
      (findClusterNamesFields_perm_entries sprintv key mid other hperm)
  | .arr items, t2, h => by
    simp only [Json.Reordered] at h
    obtain ⟨other, rfl, hitems⟩ := h
    simp only [findClusterNames]
    exact findClusterNamesItems_reordered sprintv hinv key items other hitems
  | .null, t2, h => by simp only [Json.Reordered] at h; subst h; exact List.Perm.refl _
  | .bool _, t2, h => by simp only [Json.Reordered] at h; subst h; exact List.Perm.refl _
  | .num _, t2, h => by simp only [Json.Reordered] at h; subst h; exact List.Perm.refl _
  | .str _, t2, h => by simp only [Json.Reordered] at h; subst h; exact List.Perm.refl _
theorem findClusterNamesFields_reordered (sprintv : Json → String)
    (hinv : ∀ a b, Json.Reordered a b → sprintv a = sprintv b) (key : String) :
    ∀ (fs mid : List (String × Json)), Json.ReorderedFields fs mid →
      (findClusterNamesFields sprintv fs key).Perm (findClusterNamesFields sprintv mid key)
  | [], mid, h => by
    simp only [Json.ReorderedFields] at h; subst h; exact List.Perm.refl _
  | (k, v) :: rest, mid, h => by
    simp only [Json.ReorderedFields] at h
    obtain ⟨w, tail, rfl, hvw, hrest⟩ := h
    simp only [findClusterNamesFields, hinv v w hvw]
    exact List.Perm.append
      (List.Perm.append_left _ (findClusterNames_reordered sprintv hinv key v w hvw))
      (findClusterNamesFields_reordered sprintv hinv key rest tail hrest)
theorem findClusterNamesItems_reordered (sprintv : Json → String)
    (hinv : ∀ a b, Json.Reordered a b → sprintv a = sprintv b) (key : String) :
    ∀ (items other : List Json), Json.ReorderedItems items other →
      (findClusterNamesItems sprintv items key).Perm (findClusterNamesItems sprintv other key)
  | [], other, h => by
    simp only [Json.ReorderedItems] at h; subst h; exact List.Perm.refl _
  | item :: rest, other, h => by
    simp only [Json.ReorderedItems] at h
    obtain ⟨w, tail, rfl, hvw, hrest⟩ := h
    simp only [findClusterNamesItems]
    exact List.Perm.append (findClusterNames_reordered sprintv hinv key item w hvw)
      (findClusterNamesItems_reordered sprintv hinv key rest tail hrest)
end

mutual
theorem Reordered_refl : ∀ (t : Json), Json.Reordered t t
  | .obj fs => by
    simp only [Json.Reordered]
    exact ⟨fs, fs, rfl, ReorderedFields_refl fs, List.Perm.refl _⟩
  | .arr items => by
    simp only [Json.Reordered]
    exact ⟨items, rfl, ReorderedItems_refl items⟩
  | .null => by simp only [Json.Reordered]
  | .bool _ => by simp only [Json.Reordered]
  | .num _ => by simp only [Json.Reordered]
  | .str _ => by simp only [Json.Reordered]
theorem ReorderedFields_refl : ∀ (fs : List (String × Json)), Json.ReorderedFields fs fs
  | [] => by simp only [Json.ReorderedFields]
  | (k, v) :: rest => by
    simp only [Json.ReorderedFields]
    exact ⟨v, rest, rfl, Reordered_refl v, ReorderedFields_refl rest⟩
theorem ReorderedItems_refl : ∀ (items : List Json), Json.ReorderedItems items items
  | [] => by simp only [Json.ReorderedItems]
  | item :: rest => by
    simp only [Json.ReorderedItems]
    exact ⟨item, rest, rfl, Reordered_refl item, ReorderedItems_refl rest⟩
end

/-- A mapping enumerated in another order is the same mapping reordered. -/
theorem Reordered_obj_of_perm (fs gs : List (String × Json)) (h : fs.Perm gs) :
    Json.Reordered (.obj fs) (.obj gs) := by
  simp only [Json.Reordered]
  exact ⟨fs, gs, rfl, ReorderedFields_refl fs, h⟩

theorem scenarioSprintv_reordered :
    ∀ a b, Json.Reordered a b → scenarioSprintv a = scenarioSprintv b := by
  intro a b h
  cases a with
  | obj fs =>
    simp only [Json.Reordered] at h
    obtain ⟨_, other, rfl, _, _⟩ := h
    rfl
  | arr items =>
    simp only [Json.Reordered] at h
    obtain ⟨other, rfl, _⟩ := h
    rfl
  | null => simp only [Json.Reordered] at h; subst h; rfl
  | bool _ => simp only [Json.Reordered] at h; subst h; rfl
  | num _ => simp only [Json.Reordered] at h; subst h; rfl
  | str _ => simp only [Json.Reordered] at h; subst h; rfl

theorem siblingTree_reordered : Json.Reordered siblingTree siblingTreeSwapped := by
  simp only [siblingTree, siblingTreeSwapped, Json.Reordered]
  refine ⟨[("token_secret", .obj [("sds_config", .obj []), ("name", .str "certs/token")]),
      ("hmac_secret", .obj [("sds_config", .obj []), ("name", .str "certs/hmac")])], _, rfl, ?_,
    List.Perm.swap _ _ _⟩
  simp only [Json.ReorderedFields]
  exact ⟨_, _, rfl, Reordered_obj_of_perm _ _ (List.Perm.swap _ _ _), _, _, rfl,
    Reordered_obj_of_perm _ _ (List.Perm.swap _ _ _), rfl⟩

/-- C11: two runs of the search over the same tree, whose mappings have
pairwise distinct keys, return the same multiset of matches whatever the order
in which each run enumerates the entries of each mapping: for `findSDSNames`
and for `findClusterNames`, the result list on a tree and the result list on
the tree with its mapping entries reordered, at any depth, are permutations of
each other; a tree is a reordering of itself. The rendering of a value does not
depend on the order of enumeration. -/
theorem treeSearch_independent_of_enumeration (sprintv : Json → String)
    (hinv : ∀ a b, Json.Reordered a b → sprintv a = sprintv b) (t1 t2 : Json) (key : String)
    (hkeys : t1.distinctKeys = true) (hre : Json.Reordered t1 t2) :
    (findSDSNames sprintv t1 key).Perm (findSDSNames sprintv t2 key) ∧
      (findClusterNames sprintv t1 key).Perm (findClusterNames sprintv t2 key) ∧
      ((findSDSNames sprintv t1 key : List String) : Multiset String) =
        (findSDSNames sprintv t2 key : List String) ∧
      ((findClusterNames sprintv t1 key : List String) : Multiset String) =
        (findClusterNames sprintv t2 key : List String) ∧
      Json.Reordered t1 t1 := by
  have h1 := findSDSNames_reordered sprintv hinv key t1 t2 hre hkeys
  have h2 := findClusterNames_reordered sprintv hinv key t1 t2 hre
  exact ⟨h1, h2, Multiset.coe_eq_coe.2 h1, Multiset.coe_eq_coe.2 h2, Reordered_refl t1⟩

/-- The scenario of C11: a filter document with two SDS references, enumerated
in two orders, gives the names `certs/token` and `certs/hmac` in the two
orders; the two result lists are permutations of each other. -/
theorem treeSearch_independent_of_enumeration_witness :
    findSDSNames scenarioSprintv siblingTree "sds_config" = ["certs/token", "certs/hmac"] ∧
      findSDSNames scenarioSprintv siblingTreeSwapped "sds_config" =
        ["certs/hmac", "certs/token"] ∧
      (findSDSNames scenarioSprintv siblingTree "sds_config").Perm
        (findSDSNames scenarioSprintv siblingTreeSwapped "sds_config") ∧
      (findClusterNames scenarioSprintv siblingTree "name").Perm
        (findClusterNames scenarioSprintv siblingTreeSwapped "name") :=
  ⟨by decide, by decide,
    (treeSearch_independent_of_enumeration scenarioSprintv scenarioSprintv_reordered
      siblingTree siblingTreeSwapped "sds_config" (by decide) siblingTree_reordered).1,
    (treeSearch_independent_of_enumeration scenarioSprintv scenarioSprintv_reordered
      siblingTree siblingTreeSwapped "name" (by decide) siblingTree_reordered).2.1⟩

end Xds
